import Mathlib

/-!
# QuizChallenge: the websocket session hub and the quiz handlers

A shallow embedding of `backend/websocket-service/hub.go`: the registry of quiz
rooms (`Hub.quizRooms`), the three cases of the control loop `Hub.Run`
(register, unregister, inbound message), `Hub.handleMessage` and the fan-out
`Hub.broadcastToRoom`; of `authMiddleware` of `backend/websocket-service/main.go`;
and of the handlers `GetQuiz`, `SubmitAnswer` and `FinishQuiz` of
`backend/quiz-service/handlers/quiz_handler.go`, where the outcomes of the
database, of the JSON binding and of JWT parsing are inputs.

Modelling choices:

* A `*Client` is a record of its pointer identity (`addr`) and of the two fields
  the hub reads, `quizID` and `userID`; the hub never assigns to them.
* `client.send` is a buffered Go channel of encoded frames.  Its state (queued
  items, closed flag) lives in `Hub.send`, indexed by client.  The capacity the
  channel was made with is a parameter `cap` of every operation.
* A Go `panic` (send on a closed channel, close of a closed channel) is the
  result `none`.
* `map[*Client]bool` is a duplicate-free list of clients; the fan-out visits it
  in list order.  Each visit touches only the visited client, so the outcome
  does not depend on the order (see `broadcast_order_irrelevant`).
-/

namespace QuizChallenge

/-! ## Data model -/

/-- A value held by `Message.Content` (Go `interface{}`): nothing, an
uninterpreted payload decoded from an inbound frame, or a map from strings to
strings such as the hub builds for its join and leave notices. -/
inductive Value where
  | null
  | text (s : String)
  | object (fields : List (String × String))
deriving DecidableEq, Repr

/-- The member `k` of an object value, if there is one. -/
def Value.field (v : Value) (k : String) : Option String :=
  match v with
  | .object fields => fields.lookup k
  | _ => none

/-- The struct `Message` of hub.go. -/
structure Message where
  QuizID : String
  Type_ : String
  Content : Value
  UserID : String
deriving DecidableEq, Repr

/-- The JSON object `json.Marshal` writes for a `Message`, kept as its four
members (named by the struct's json tags) rather than as text. -/
structure Frame where
  quiz_id : String
  type : String
  content : Value
  user_id : String
deriving DecidableEq, Repr

/-- The call `json.Marshal(message)`: the encoding of a `Message` whose fields
are strings and a `Value` always succeeds. -/
def jsonMarshal (message : Message) : Except String Frame :=
  .ok ⟨message.QuizID, message.Type_, message.Content, message.UserID⟩

/-- A client handle (`*Client`): pointer identity and the fields the hub reads. -/
structure Client where
  addr : Nat
  quizID : String
  userID : String
deriving DecidableEq, Repr

/-- State of a buffered channel of frames: the queued items, oldest first, and
whether the channel has been closed. -/
structure Chan where
  buf : List Frame
  closed : Bool
deriving DecidableEq, Repr

/-- A freshly made channel. -/
def Chan.fresh : Chan := ⟨[], false⟩

/-- The builtin `close(ch)`: closing a closed channel panics. -/
def Chan.close (ch : Chan) : Option Chan :=
  if ch.closed then none else some { ch with closed := true }

/-- Outcome of `select { case ch <- v: ... default: ... }`. -/
inductive TrySend where
  | sent (ch : Chan)
  | wouldBlock
deriving DecidableEq, Repr

/-- A non-blocking send on a channel of capacity `cap`: a send on a closed
channel panics, a send on a channel with room enqueues at the tail, and
otherwise the `default` branch is taken. -/
def Chan.trySend (cap : Nat) (ch : Chan) (v : Frame) : Option TrySend :=
  if ch.closed then none
  else if ch.buf.length < cap then some (.sent { ch with buf := ch.buf ++ [v] })
  else some .wouldBlock

/-- A mailbox is full when a non-blocking send on it would not enqueue. -/
def Chan.full (cap : Nat) (ch : Chan) : Bool := decide (cap ≤ ch.buf.length)

/-- A room (`map[*Client]bool`): its keys, without duplicates. -/
structure Room where
  members : List Client
  nodup : members.Nodup

instance : DecidableEq Room := fun a b =>
  match a, b with
  | ⟨m₁, _⟩, ⟨m₂, _⟩ =>
    if h : m₁ = m₂ then isTrue (by subst h; rfl)
    else isFalse (fun e => h (congrArg Room.members e))

/-- The call `make(map[*Client]bool)`. -/
def Room.empty : Room := ⟨[], List.nodup_nil⟩

/-- The assignment `room[client] = true`. -/
def Room.insert (r : Room) (client : Client) : Room :=
  if h : client ∈ r.members then r
  else ⟨r.members ++ [client], by
    refine List.Nodup.append r.nodup (List.nodup_singleton client) ?_
    intro a ha hb
    rw [List.mem_singleton] at hb
    exact h (hb ▸ ha)⟩

/-- The call `delete(room, client)`. -/
def Room.erase (r : Room) (client : Client) : Room :=
  ⟨r.members.erase client, r.nodup.erase client⟩

/-- The call `len(room)`. -/
def Room.len (r : Room) : Nat := r.members.length

/-- The hub: the registry `quizRooms` (`none` for an absent key) and the state
of every client's `send` channel. -/
structure Hub where
  quizRooms : String → Option Room
  send : Client → Chan

/-- The hub `NewHub` returns, before any client is registered: no room, and
every client's channel as `make` left it. -/
def NewHub : Hub := ⟨fun _ => none, fun _ => Chan.fresh⟩

/-- Whether `client` is a key of the room registered under `quizID`. -/
def Hub.isMember (h : Hub) (quizID : String) (client : Client) : Bool :=
  match h.quizRooms quizID with
  | none => false
  | some room => decide (client ∈ room.members)

/-- Number of members of the room under `quizID` (0 when there is no room). -/
def Hub.memberCount (h : Hub) (quizID : String) : Nat :=
  match h.quizRooms quizID with
  | none => 0
  | some room => room.len

/-- Whether `quizID` is a key of the registry. -/
def Hub.hasRoom (h : Hub) (quizID : String) : Bool := (h.quizRooms quizID).isSome

/-! ## Operations -/

/-- The body of the loop of `broadcastToRoom` for one member: encode, then a
non-blocking send; when the mailbox is full, close it and delete the member
from the room. -/
def deliver (cap : Nat) (quizID : String) (message : Message) (h : Hub)
    (client : Client) : Option Hub :=
  match jsonMarshal message with
  | .error _ => some h
  | .ok messageJSON =>
    match (h.send client).trySend cap messageJSON with
    | none => none
    | some (.sent ch) => some { h with send := Function.update h.send client ch }
    | some .wouldBlock =>
      match (h.send client).close with
      | none => none
      | some ch =>
        some { quizRooms := Function.update h.quizRooms quizID
                 ((h.quizRooms quizID).map (fun room => room.erase client)),
               send := Function.update h.send client ch }

/-- The method `Hub.broadcastToRoom`. -/
def broadcastToRoom (cap : Nat) (h : Hub) (quizID : String) (message : Message) :
    Option Hub :=
  match h.quizRooms quizID with
  | none => some h
  | some clients => clients.members.foldlM (deliver cap quizID message) h

/-- The method `Hub.handleMessage`. -/
def handleMessage (cap : Nat) (h : Hub) (message : Message) : Option Hub :=
  if message.Type_ = "answer" then broadcastToRoom cap h message.QuizID message
  else if message.Type_ = "question" then broadcastToRoom cap h message.QuizID message
  else if message.Type_ = "result" then broadcastToRoom cap h message.QuizID message
  else some h

/-- The notice built in the register case of `Run`. -/
def joinMessage (client : Client) : Message :=
  { QuizID := client.quizID
    Type_ := "join"
    Content := .object [("user_id", client.userID), ("message", "New participant joined")]
    UserID := "" }

/-- The notice built in the unregister case of `Run`. -/
def leaveMessage (client : Client) : Message :=
  { QuizID := client.quizID
    Type_ := "leave"
    Content := .object [("user_id", client.userID), ("message", "Participant left")]
    UserID := "" }

/-- The register case of `Run`. -/
def register (cap : Nat) (h : Hub) (client : Client) : Option Hub :=
  let h₁ : Hub :=
    match h.quizRooms client.quizID with
    | some _ => h
    | none => { h with quizRooms := Function.update h.quizRooms client.quizID (some Room.empty) }
  let h₂ : Hub :=
    { h₁ with quizRooms := Function.update h₁.quizRooms client.quizID
                ((h₁.quizRooms client.quizID).map (fun room => room.insert client)) }
  broadcastToRoom cap h₂ client.quizID (joinMessage client)

/-- The unregister case of `Run`. -/
def unregister (cap : Nat) (h : Hub) (client : Client) : Option Hub :=
  match h.quizRooms client.quizID with
  | none => some h
  | some room =>
    if client ∈ room.members then
      match (h.send client).close with
      | none => none
      | some ch =>
        let h₁ : Hub :=
          { quizRooms := Function.update h.quizRooms client.quizID (some (room.erase client)),
            send := Function.update h.send client ch }
        if (room.erase client).len = 0 then
          some { h₁ with quizRooms := Function.update h₁.quizRooms client.quizID none }
        else
          broadcastToRoom cap h₁ client.quizID (leaveMessage client)
    else some h

/-- What the control loop takes from one of its three channels. -/
inductive Event where
  | register (client : Client)
  | unregister (client : Client)
  | broadcast (message : Message)
deriving DecidableEq, Repr

/-- One iteration of the loop of `Hub.Run`. -/
def step (cap : Nat) (h : Hub) : Event → Option Hub
  | .register client => register cap h client
  | .unregister client => unregister cap h client
  | .broadcast message => handleMessage cap h message

/-- The loop of `Hub.Run` over the events it receives, in order. -/
def run (cap : Nat) (h : Hub) (events : List Event) : Option Hub :=
  events.foldlM (step cap) h

/-- A hub state the loop reaches from `NewHub`. -/
def Reachable (cap : Nat) (h : Hub) : Prop :=
  ∃ events, run cap NewHub events = some h

/-! ## Closed forms used to state what the fan-out does -/

/-- The frame `json.Marshal` yields for `message`. -/
def frameOf (message : Message) : Frame :=
  ⟨message.QuizID, message.Type_, message.Content, message.UserID⟩

/-- The members of a room that satisfy `p`, in the room's order. -/
def Room.filter (r : Room) (p : Client → Bool) : Room :=
  ⟨r.members.filter p, r.nodup.filter _⟩

/-- A mailbox after the fan-out has visited its owner with frame `f`: closed
and otherwise untouched when it was full, one item longer when it was not. -/
def Chan.afterSend (cap : Nat) (f : Frame) (ch : Chan) : Chan :=
  if ch.full cap then { ch with closed := true } else { ch with buf := ch.buf ++ [f] }

/-- The hub after the loop of `broadcastToRoom` has visited the clients `l` of
room `quizID` with frame `f`, none of them having a closed mailbox. -/
def fanOut (cap : Nat) (quizID : String) (f : Frame) (l : List Client) (h : Hub) : Hub :=
  { quizRooms := Function.update h.quizRooms quizID
      ((h.quizRooms quizID).map
        (fun room => room.filter (fun c => !(decide (c ∈ l) && (h.send c).full cap))))
    send := fun c => if c ∈ l then (h.send c).afterSend cap f else h.send c }

/-- Every member of every room has an open mailbox. -/
def MembersOpen (h : Hub) : Prop :=
  ∀ q room, h.quizRooms q = some room → ∀ c ∈ room.members, (h.send c).closed = false

/-- Every member of a room carries that room's session identifier. -/
def MembersHome (h : Hub) : Prop :=
  ∀ q room, h.quizRooms q = some room → ∀ c ∈ room.members, c.quizID = q

/-- The members of the room under `quizID`, none when there is no room. -/
def Hub.members (h : Hub) (quizID : String) : List Client :=
  match h.quizRooms quizID with
  | none => []
  | some room => room.members

/-- The session identifier an event is about: `client.quizID` for a register
or unregister request, `message.QuizID` for an inbound message. -/
def Event.session : Event → String
  | .register client => client.quizID
  | .unregister client => client.quizID
  | .broadcast message => message.QuizID

/-- The client handle a register or unregister request carries. -/
def Event.handle : Event → Option Client
  | .register client => some client
  | .unregister client => some client
  | .broadcast _ => none

/-- The handles passed to `Register` by a sequence of events, in order. -/
def registrations : List Event → List Client
  | [] => []
  | .register client :: es => client :: registrations es
  | _ :: es => registrations es

/-! ## Concrete clients, envelopes and states -/

/-- A client of session `Q1`. -/
def alice : Client := ⟨1, "Q1", "alice"⟩

/-- A second client of session `Q1`. -/
def bob : Client := ⟨2, "Q1", "bob"⟩

/-- A third client of session `Q1`. -/
def carol : Client := ⟨3, "Q1", "carol"⟩

/-- The envelope alice sends in the scenario of the specification. -/
def question : Message := ⟨"Q1", "question", .object [("text", "2+2?")], "alice"⟩

/-- Room `Q1` with members alice and bob, every mailbox empty and open. -/
def twoInRoom : Hub :=
  ⟨fun q => if q = "Q1" then some ⟨[alice, bob], by decide⟩ else none, fun _ => Chan.fresh⟩

/-- Room `Q1` with members alice, bob and carol; alice's mailbox holds one
item, the others none. -/
def threeInRoom : Hub :=
  ⟨fun q => if q = "Q1" then some ⟨[alice, bob, carol], by decide⟩ else none,
   fun c => if c = alice then ⟨[frameOf question], false⟩ else Chan.fresh⟩

/-- Room `Q1` with alice as its only member. -/
def aliceAlone : Hub :=
  ⟨fun q => if q = "Q1" then some ⟨[alice], by decide⟩ else none, fun _ => Chan.fresh⟩

/-- A client of another session, `Q2`. -/
def dave : Client := ⟨4, "Q2", "dave"⟩

/-- An inbound envelope of kind join, as a client could send it. -/
def inboundJoin : Message := ⟨"Q1", "join", .null, "alice"⟩

/-! ## The websocket authentication middleware (`websocket-service/main.go`) -/

/-- A value of a JWT claim: a string, or anything else (number, boolean,
nested value). -/
inductive ClaimValue where
  | str (s : String)
  | other
deriving DecidableEq, Repr

/-- The dynamic type of `token.Claims`: a `jwt.MapClaims`, or another
implementation of the claims interface. -/
inductive Claims where
  | mapClaims (m : List (String × ClaimValue))
  | other
deriving DecidableEq, Repr

/-- The fields of `*jwt.Token` that `authMiddleware` reads. -/
structure Token where
  Valid : Bool
  Claims : Claims
deriving DecidableEq, Repr

/-- How the handler `authMiddleware` returns ends: after `c.JSON(status,
gin.H{"error": error})` and `c.Abort()`, or after `c.Set("user_id", userID)` and
`c.Next()`. -/
inductive GateOutcome where
  | abort (status : Nat) (error : String)
  | next (userID : String)
deriving DecidableEq, Repr

/-- The handler `authMiddleware()` returns, on the value `tokenString` of the
query parameter `token` (empty when absent).  `jwtParse` stands for
`jwt.Parse` with the key function of the source: `.error` when it returns a
non-nil error, `.ok token` otherwise. -/
def authMiddleware (jwtParse : String → Except String Token) (tokenString : String) :
    GateOutcome :=
  if tokenString = "" then .abort 401 "Token is required"
  else
    match jwtParse tokenString with
    | .error _ => .abort 401 "Invalid token"
    | .ok token =>
      if !token.Valid then .abort 401 "Invalid token"
      else
        match token.Claims with
        | .other => .abort 401 "Invalid token claims"
        | .mapClaims claims =>
          match claims.lookup "user_id" with
          | some (.str userID) => .next userID
          | _ => .abort 401 "User ID not found in token"

/-- What the route `/ws/:quizId` does with a request: answer with an error, or
call `ServeWs` for the identity stored in the context. -/
inductive RouteOutcome where
  | answered (status : Nat) (error : String)
  | servedWs (userID : String)
deriving DecidableEq, Repr

/-- The handler chain `authMiddleware(), func(c) { ServeWs(hub, c) }` of the
route `/ws/:quizId`: gin runs the second handler from `c.Next()` and skips it
once the first has called `c.Abort()`. -/
def wsRoute (jwtParse : String → Except String Token) (tokenString : String) : RouteOutcome :=
  match authMiddleware jwtParse tokenString with
  | .abort status error => .answered status error
  | .next userID => .servedWs userID

/-! ## The quiz service (`quiz-service/models/quiz.go`, `handlers/quiz_handler.go`) -/

/-- The type `primitive.ObjectID`, by its hexadecimal text. -/
structure ObjectID where
  hex : String
deriving DecidableEq, Repr

/-- The struct `models.Question`. -/
structure Question where
  Word : String
  Options : List String
  CorrectAnswer : String
deriving DecidableEq, Repr

/-- The struct `models.Quiz` (times as seconds). -/
structure Quiz where
  ID : ObjectID
  Title : String
  Description : String
  Questions : List Question
  CreatedAt : Nat
  UpdatedAt : Nat
deriving DecidableEq, Repr

/-- The struct `models.QuestionResponse`. -/
structure QuestionResponse where
  Text : String
  Options : List String
deriving DecidableEq, Repr

/-- The struct `models.QuizResponse`. -/
structure QuizResponse where
  ID : ObjectID
  Title : String
  Description : String
  TimePerQuestion : Int
  TotalQuestions : Int
  StartTime : Option Nat
  EndTime : Option Nat
  Questions : List QuestionResponse
deriving DecidableEq, Repr

/-- The struct `models.UserAnswer`. -/
structure UserAnswer where
  QuestionIndex : Int
  Answer : String
deriving DecidableEq, Repr

/-- The fields of `models.QuizAttempt` the handlers read. -/
structure QuizAttempt where
  ID : ObjectID
  QuizID : ObjectID
  UserID : String
  Answers : List UserAnswer
  CreatedAt : Nat
deriving DecidableEq, Repr

/-- Outcome of `FindOne(...).Decode(&doc)`: the document, `mongo.ErrNoDocuments`,
or another error. -/
inductive FindResult (α : Type) where
  | found (doc : α)
  | noDocuments
  | failed
deriving DecidableEq, Repr

/-- The float64 value `float64(correctAnswers) / float64(totalQuestions) * 100`,
kept as its two integer operands. -/
structure Score where
  correctAnswers : Nat
  totalQuestions : Nat
deriving DecidableEq, Repr

/-- The body of a JSON reply of the handlers modelled here. -/
inductive Body where
  | error (msg : String)
  | message (msg : String)
  | correct (isCorrect : Bool)
  | quiz (response : QuizResponse)
deriving DecidableEq, Repr

/-- The call `c.JSON(status, body)`. -/
structure Reply where
  status : Nat
  body : Body
deriving DecidableEq, Repr

/-- The index expression `s[i]` on a slice, `none` for the run-time panic
"index out of range". -/
def index {α : Type} (s : List α) (i : Int) : Option α :=
  if i < 0 then none else s[i.toNat]?

/-- The loop `for i, q := range quiz.Questions { response.Questions[i] = ... }`
of `GetQuiz`, from position `i` on, writing into `out`. -/
def fillQuestions : List Question → Nat → List QuestionResponse → List QuestionResponse
  | [], _, out => out
  | q :: qs, i, out => fillQuestions qs (i + 1) (out.set i ⟨q.Word, q.Options⟩)

/-- The conversion in `GetQuiz` of a stored quiz to its response (lines
103-117): the composite literal, whose unnamed fields are zero and whose
`Questions` is `make([]models.QuestionResponse, len(quiz.Questions))`, then the
loop. -/
def quizResponse (quiz : Quiz) : QuizResponse :=
  let response : QuizResponse :=
    { ID := quiz.ID
      Title := quiz.Title
      Description := quiz.Description
      TimePerQuestion := 0
      TotalQuestions := 0
      StartTime := none
      EndTime := none
      Questions := List.replicate quiz.Questions.length ⟨"", []⟩ }
  { response with Questions := fillQuestions quiz.Questions 0 response.Questions }

/-- The handler `GetQuiz`; `objectID` is the outcome of
`primitive.ObjectIDFromHex(id)` and `find` that of the database lookup. -/
def GetQuiz (objectID : Option ObjectID) (find : FindResult Quiz) : Reply :=
  match objectID with
  | none => ⟨400, .error "Invalid ID"⟩
  | some _ =>
    match find with
    | .noDocuments => ⟨404, .error "Quiz not found"⟩
    | .failed => ⟨500, .error "Error retrieving quiz"⟩
    | .found quiz => ⟨200, .quiz (quizResponse quiz)⟩

/-- The value of a string of decimal digits, `none` when a character is not
a digit. -/
def digitsValue : List Char → Nat → Option Nat
  | [], acc => some acc
  | c :: cs, acc => if c.isDigit then digitsValue cs (10 * acc + (c.toNat - 48)) else none

/-- The integer a string denotes in decimal: an optional sign `+` or `-`
followed by at least one digit.  `none` is the syntax error of `strconv`. -/
def parseDecimal (s : String) : Option Int :=
  match s.toList with
  | [] => none
  | '+' :: ds => if ds = [] then none else (digitsValue ds 0).map Int.ofNat
  | '-' :: ds => if ds = [] then none else (digitsValue ds 0).map (fun n => -Int.ofNat n)
  | ds => (digitsValue ds 0).map Int.ofNat

/-- The function `strconv.Atoi` for a 64-bit `int`: a syntax error, or a range
error when the value does not fit, are `none`. -/
def Atoi (s : String) : Option Int :=
  match parseDecimal s with
  | none => none
  | some v => if -(2 : Int) ^ 63 ≤ v ∧ v < (2 : Int) ^ 63 then some v else none

/-- The handler `SubmitAnswer`, `none` for a run-time panic.  `bind` is the
outcome of `c.ShouldBindJSON(&answer)`, `objectID` that of
`primitive.ObjectIDFromHex(quizID)`, `find` that of the lookup of the quiz,
`questionIndex` the path parameter, `userID` what `c.Get("user_id")` yields and
`saved` whether `UpdateOne` returned no error. -/
def SubmitAnswer (bind : Except String String) (objectID : Option ObjectID)
    (find : FindResult Quiz) (questionIndex : String) (userID : Option String)
    (saved : Bool) : Option Reply :=
  match bind with
  | .error err => some ⟨400, .error err⟩
  | .ok answer =>
    match objectID with
    | none => some ⟨400, .error "Invalid quiz ID"⟩
    | some _ =>
      match find with
      | .noDocuments => some ⟨404, .error "Quiz not found"⟩
      | .failed => some ⟨500, .error "Error retrieving quiz"⟩
      | .found quiz =>
        match Atoi questionIndex with
        | none => some ⟨400, .error "Invalid question index"⟩
        | some qIndex =>
          if qIndex < 0 ∨ qIndex ≥ quiz.Questions.length then
            some ⟨400, .error "Question index out of range"⟩
          else
            match index quiz.Questions qIndex with
            | none => none
            | some q =>
              let isCorrect := decide (q.CorrectAnswer = answer)
              match userID with
              | none => some ⟨401, .error "User ID not found in token"⟩
              | some _ =>
                if saved then some ⟨200, .correct isCorrect⟩
                else some ⟨500, .error "Error saving answer"⟩

/-- The scoring loop of `FinishQuiz` over the stored answers, `correctAnswers`
being the count so far; `none` for the panic of an index out of range. -/
def countCorrect (quiz : Quiz) : List UserAnswer → Nat → Option Nat
  | [], correctAnswers => some correctAnswers
  | ans :: rest, correctAnswers =>
    match index quiz.Questions ans.QuestionIndex with
    | none => none
    | some q =>
      countCorrect quiz rest
        (if ans.Answer = q.CorrectAnswer then correctAnswers + 1 else correctAnswers)

/-- What `FinishQuiz` does: its reply and, when it got that far, the score it
passes to `UpdateOne`. -/
structure FinishResult where
  reply : Reply
  score : Option Score
deriving DecidableEq, Repr

/-- The handler `FinishQuiz`, `none` for a run-time panic.  `quizID` is the
outcome of `primitive.ObjectIDFromHex`, `userID` what `c.Get("user_id")`
yields, `findAttempt` and `findQuiz` the outcomes of the two lookups and
`updated` whether `UpdateOne` returned no error. -/
def FinishQuiz (quizID : Option ObjectID) (userID : Option String)
    (findAttempt : FindResult QuizAttempt) (findQuiz : FindResult Quiz) (updated : Bool) :
    Option FinishResult :=
  match quizID with
  | none => some ⟨⟨400, .error "Invalid quiz ID"⟩, none⟩
  | some _ =>
    match userID with
    | none => some ⟨⟨401, .error "User ID not found in token"⟩, none⟩
    | some _ =>
      match findAttempt with
      | .noDocuments => some ⟨⟨404, .error "Quiz attempt not found"⟩, none⟩
      | .failed => some ⟨⟨500, .error "Error retrieving quiz attempt"⟩, none⟩
      | .found attempt =>
        match findQuiz with
        | .noDocuments => some ⟨⟨500, .error "Error retrieving quiz"⟩, none⟩
        | .failed => some ⟨⟨500, .error "Error retrieving quiz"⟩, none⟩
        | .found quiz =>
          match countCorrect quiz attempt.Answers 0 with
          | none => none
          | some correctAnswers =>
            let score : Score := ⟨correctAnswers, quiz.Questions.length⟩
            if updated then some ⟨⟨200, .message "Quiz finished successfully"⟩, some score⟩
            else some ⟨⟨500, .error "Error updating quiz attempt"⟩, some score⟩

/-- Whether a stored answer equals the correct answer of the question at its
index (false when the index is outside the question list). -/
def answeredCorrectly (quiz : Quiz) (ans : UserAnswer) : Bool :=
  decide ((index quiz.Questions ans.QuestionIndex).map Question.CorrectAnswer = some ans.Answer)

/-! ## Concrete quizzes and tokens -/

/-- A quiz of two questions. -/
def sampleQuiz : Quiz :=
  { ID := ⟨"65f0a1b2c3d4e5f601234567"⟩
    Title := "Arithmetic"
    Description := "Two sums"
    Questions := [⟨"2+2?", ["3", "4"], "4"⟩, ⟨"3+3?", ["6", "7"], "6"⟩]
    CreatedAt := 0
    UpdatedAt := 0 }

/-- The same quiz with other correct answers recorded. -/
def sampleQuizOtherAnswers : Quiz :=
  { sampleQuiz with Questions := [⟨"2+2?", ["3", "4"], "3"⟩, ⟨"3+3?", ["6", "7"], "7"⟩] }

/-- An attempt with three stored answers, two of them for question 0. -/
def sampleAttempt : QuizAttempt :=
  { ID := ⟨"65f0a1b2c3d4e5f6012345aa"⟩
    QuizID := sampleQuiz.ID
    UserID := "alice"
    Answers := [⟨0, "4"⟩, ⟨0, "4"⟩, ⟨1, "7"⟩]
    CreatedAt := 0 }

/-- A token parser that accepts the one token `good`, with a string user_id. -/
def sampleParse (tokenString : String) : Except String Token :=
  if tokenString = "good" then .ok ⟨true, .mapClaims [("user_id", .str "alice")]⟩
  else .error "token is malformed"

/-! ## Lemmas on rooms and channels -/

theorem Room.ext_members {r₁ r₂ : Room} (h : r₁.members = r₂.members) : r₁ = r₂ := by
  cases r₁; cases r₂; cases h; rfl

theorem Hub.ext_fields {h₁ h₂ : Hub} (hr : h₁.quizRooms = h₂.quizRooms) (hs : h₁.send = h₂.send) :
    h₁ = h₂ := by
  cases h₁; cases h₂; cases hr; cases hs; rfl

theorem jsonMarshal_eq (message : Message) : jsonMarshal message = .ok (frameOf message) := rfl

theorem Room.filter_true (r : Room) (p : Client → Bool) (hp : ∀ c ∈ r.members, p c = true) :
    r.filter p = r :=
  Room.ext_members (List.filter_eq_self.mpr hp)

theorem Room.erase_filter (r : Room) (x : Client) (p p' : Client → Bool)
    (hx : p' x = false) (hp : ∀ c ∈ r.members, c ≠ x → p c = p' c) :
    (r.erase x).filter p = r.filter p' := by
  apply Room.ext_members
  show (r.members.erase x).filter p = r.members.filter p'
  rw [r.nodup.erase_eq_filter, List.filter_filter]
  apply List.filter_congr
  intro c hc
  by_cases hcx : c = x
  · subst hcx; simp [hx]
  · simp [hcx, hp c hc hcx]

theorem Room.filter_congr (r : Room) (p p' : Client → Bool)
    (hp : ∀ c ∈ r.members, p c = p' c) : r.filter p = r.filter p' :=
  Room.ext_members (List.filter_congr hp)

/-! ## One visit of the fan-out -/

theorem deliver_closed (cap : Nat) (q : String) (m : Message) (h : Hub) (c : Client)
    (hc : (h.send c).closed = true) : deliver cap q m h c = none := by
  simp [deliver, jsonMarshal, Chan.trySend, hc]

theorem deliver_sent (cap : Nat) (q : String) (m : Message) (h : Hub) (c : Client)
    (hc : (h.send c).closed = false) (hlen : (h.send c).buf.length < cap) :
    deliver cap q m h c =
      some { h with send := Function.update h.send c
                      { h.send c with buf := (h.send c).buf ++ [frameOf m] } } := by
  simp [deliver, jsonMarshal, Chan.trySend, hc, hlen, frameOf]

theorem deliver_full (cap : Nat) (q : String) (m : Message) (h : Hub) (c : Client)
    (hc : (h.send c).closed = false) (hlen : ¬ (h.send c).buf.length < cap) :
    deliver cap q m h c =
      some { quizRooms := Function.update h.quizRooms q
               ((h.quizRooms q).map (fun room => room.erase c)),
             send := Function.update h.send c { h.send c with closed := true } } := by
  simp [deliver, jsonMarshal, Chan.trySend, Chan.close, hc, hlen]

theorem fanOut_nil (cap : Nat) (q : String) (f : Frame) (h : Hub) :
    fanOut cap q f [] h = h := by
  apply Hub.ext_fields
  · show Function.update h.quizRooms q _ = h.quizRooms
    rw [Function.update_eq_self_iff]
    cases hq : h.quizRooms q with
    | none => rfl
    | some room =>
      simp only [Option.map_some']
      rw [Room.filter_true]
      intro c _
      simp
  · funext c
    simp [fanOut]

theorem fanOut_cons_sent (cap : Nat) (q : String) (f : Frame) (h : Hub) (c : Client)
    (l : List Client) (hcl : c ∉ l) (hlen : (h.send c).buf.length < cap) :
    fanOut cap q f l
        { h with send := Function.update h.send c { h.send c with buf := (h.send c).buf ++ [f] } }
      = fanOut cap q f (c :: l) h := by
  have hfull : (h.send c).full cap = false := by
    simp [Chan.full, hlen]
  apply Hub.ext_fields
  · show Function.update h.quizRooms q _ = Function.update h.quizRooms q _
    refine congrArg (Function.update h.quizRooms q) ?_
    cases hq : h.quizRooms q with
    | none => rfl
    | some room =>
      simp only [Option.map_some']
      refine congrArg some ?_
      apply Room.filter_congr
      intro x _
      by_cases hx : x = c
      · subst hx; simp [hcl, hfull]
      · simp [Function.update_noteq hx, hx]
  · funext x
    by_cases hx : x = c
    · subst hx
      simp [fanOut, hcl, Chan.afterSend, hfull]
    · simp [fanOut, Function.update_noteq hx, hx]

theorem fanOut_cons_full (cap : Nat) (q : String) (f : Frame) (h : Hub) (c : Client)
    (l : List Client) (hcl : c ∉ l) (hlen : ¬ (h.send c).buf.length < cap) :
    fanOut cap q f l
        { quizRooms := Function.update h.quizRooms q
            ((h.quizRooms q).map (fun room => room.erase c)),
          send := Function.update h.send c { h.send c with closed := true } }
      = fanOut cap q f (c :: l) h := by
  have hfull : (h.send c).full cap = true := by
    simp [Chan.full]; omega
  apply Hub.ext_fields
  · show Function.update (Function.update h.quizRooms q _) q _ = Function.update h.quizRooms q _
    rw [Function.update_idem]
    refine congrArg (Function.update h.quizRooms q) ?_
    simp only [Function.update_same]
    cases hq : h.quizRooms q with
    | none => rfl
    | some room =>
      simp only [Option.map_some']
      refine congrArg some ?_
      apply Room.erase_filter
      · simp [hfull]
      · intro x _ hx
        simp [Function.update_noteq hx, hx]
  · funext x
    by_cases hx : x = c
    · subst hx
      simp [fanOut, hcl, Chan.afterSend, hfull]
    · simp [fanOut, Function.update_noteq hx, hx]

/-- The loop of `broadcastToRoom` over duplicate-free clients `l`: it panics
when one of them has a closed mailbox and otherwise ends in `fanOut`. -/
theorem foldlM_deliver (cap : Nat) (q : String) (m : Message) :
    ∀ (l : List Client), l.Nodup → ∀ h : Hub,
      l.foldlM (deliver cap q m) h =
        if (∀ c ∈ l, (h.send c).closed = false) then some (fanOut cap q (frameOf m) l h)
        else none := by
  intro l
  induction l with
  | nil =>
    intro _ h
    simp [fanOut_nil]
  | cons c l ih =>
    intro hnd h
    have hcl : c ∉ l := (List.nodup_cons.mp hnd).1
    have hl : l.Nodup := (List.nodup_cons.mp hnd).2
    rw [List.foldlM_cons]
    by_cases hc : (h.send c).closed = true
    · rw [deliver_closed cap q m h c hc]
      have : ¬ ∀ c' ∈ c :: l, (h.send c').closed = false := by
        intro hall
        have := hall c (List.mem_cons_self c l)
        simp [hc] at this
      rw [if_neg this]
      rfl
    · have hc' : (h.send c).closed = false := by simpa using hc
      have hiff : ∀ s : Client → Chan, (∀ x, x ≠ c → s x = h.send x) →
          ((∀ c' ∈ l, (s c').closed = false) ↔ ∀ c' ∈ c :: l, (h.send c').closed = false) := by
        intro s hs
        constructor
        · intro hall c' hmem
          rcases List.mem_cons.mp hmem with rfl | hmem
          · exact hc'
          · have hne : c' ≠ c := fun e => hcl (e ▸ hmem)
            rw [← hs c' hne]; exact hall c' hmem
        · intro hall c' hmem
          have hne : c' ≠ c := fun e => hcl (e ▸ hmem)
          rw [hs c' hne]; exact hall c' (List.mem_cons_of_mem c hmem)
      by_cases hlen : (h.send c).buf.length < cap
      · rw [deliver_sent cap q m h c hc' hlen]
        show (List.foldlM (deliver cap q m) _ l) = _
        rw [ih hl, fanOut_cons_sent cap q (frameOf m) h c l hcl hlen]
        exact if_congr (hiff _ (fun x hx => Function.update_noteq hx _ _)) rfl rfl
      · rw [deliver_full cap q m h c hc' hlen]
        show (List.foldlM (deliver cap q m) _ l) = _
        rw [ih hl, fanOut_cons_full cap q (frameOf m) h c l hcl hlen]
        exact if_congr (hiff _ (fun x hx => Function.update_noteq hx _ _)) rfl rfl

/-! ## The fan-out as a whole -/

theorem broadcastToRoom_none (cap : Nat) (h : Hub) (q : String) (m : Message)
    (hq : h.quizRooms q = none) : broadcastToRoom cap h q m = some h := by
  simp [broadcastToRoom, hq]

theorem broadcastToRoom_some (cap : Nat) (h : Hub) (q : String) (m : Message) (room : Room)
    (hq : h.quizRooms q = some room) :
    broadcastToRoom cap h q m =
      if (∀ c ∈ room.members, (h.send c).closed = false)
      then some (fanOut cap q (frameOf m) room.members h) else none := by
  simp only [broadcastToRoom, hq]
  exact foldlM_deliver cap q m room.members room.nodup h

theorem fanOut_room (cap : Nat) (q : String) (f : Frame) (h : Hub) (room : Room)
    (hq : h.quizRooms q = some room) :
    (fanOut cap q f room.members h).quizRooms q =
      some (room.filter (fun c => !(h.send c).full cap)) := by
  show Function.update h.quizRooms q _ q = _
  rw [Function.update_same, hq]
  simp only [Option.map_some']
  refine congrArg some ?_
  apply Room.filter_congr
  intro c hc
  simp [hc]

theorem fanOut_other_room (cap : Nat) (q q' : String) (f : Frame) (l : List Client) (h : Hub)
    (hne : q' ≠ q) : (fanOut cap q f l h).quizRooms q' = h.quizRooms q' :=
  Function.update_noteq hne _ _

theorem fanOut_send_mem (cap : Nat) (q : String) (f : Frame) (l : List Client) (h : Hub)
    (c : Client) (hc : c ∈ l) : (fanOut cap q f l h).send c = (h.send c).afterSend cap f := by
  simp [fanOut, hc]

theorem fanOut_send_not_mem (cap : Nat) (q : String) (f : Frame) (l : List Client) (h : Hub)
    (c : Client) (hc : c ∉ l) : (fanOut cap q f l h).send c = h.send c := by
  simp [fanOut, hc]

theorem afterSend_of_not_full (cap : Nat) (f : Frame) (ch : Chan) (hf : ch.full cap = false) :
    ch.afterSend cap f = { ch with buf := ch.buf ++ [f] } := by
  simp [Chan.afterSend, hf]

theorem afterSend_of_full (cap : Nat) (f : Frame) (ch : Chan) (hf : ch.full cap = true) :
    ch.afterSend cap f = { ch with closed := true } := by
  simp [Chan.afterSend, hf]

theorem handleMessage_of_kind (cap : Nat) (h : Hub) (m : Message)
    (hkind : m.Type_ = "answer" ∨ m.Type_ = "question" ∨ m.Type_ = "result") :
    handleMessage cap h m = broadcastToRoom cap h m.QuizID m := by
  unfold handleMessage
  rcases hkind with hk | hk | hk <;> simp [hk]

theorem Room.mem_filter (r : Room) (p : Client → Bool) (c : Client) :
    c ∈ (r.filter p).members ↔ c ∈ r.members ∧ p c = true :=
  List.mem_filter

/-! ## The unregister case -/

theorem unregister_no_room (cap : Nat) (h : Hub) (c : Client)
    (hq : h.quizRooms c.quizID = none) : unregister cap h c = some h := by
  simp [unregister, hq]

theorem unregister_not_in_room (cap : Nat) (h : Hub) (c : Client) (room : Room)
    (hq : h.quizRooms c.quizID = some room) (hc : c ∉ room.members) :
    unregister cap h c = some h := by
  simp [unregister, hq, hc]

theorem unregister_of_not_member (cap : Nat) (h : Hub) (c : Client)
    (hc : h.isMember c.quizID c = false) : unregister cap h c = some h := by
  cases hq : h.quizRooms c.quizID with
  | none => exact unregister_no_room cap h c hq
  | some room =>
    apply unregister_not_in_room cap h c room hq
    simpa [Hub.isMember, hq] using hc

theorem unregister_closed (cap : Nat) (h : Hub) (c : Client) (room : Room)
    (hq : h.quizRooms c.quizID = some room) (hc : c ∈ room.members)
    (hclosed : (h.send c).closed = true) : unregister cap h c = none := by
  simp [unregister, hq, hc, Chan.close, hclosed]

theorem unregister_last (cap : Nat) (h : Hub) (c : Client) (room : Room)
    (hq : h.quizRooms c.quizID = some room) (hc : c ∈ room.members)
    (hopen : (h.send c).closed = false) (hlen : (room.erase c).len = 0) :
    unregister cap h c =
      some { quizRooms := Function.update h.quizRooms c.quizID none,
             send := Function.update h.send c { h.send c with closed := true } } := by
  simp [unregister, hq, hc, Chan.close, hopen, hlen]

theorem unregister_others (cap : Nat) (h : Hub) (c : Client) (room : Room)
    (hq : h.quizRooms c.quizID = some room) (hc : c ∈ room.members)
    (hopen : (h.send c).closed = false) (hlen : (room.erase c).len ≠ 0) :
    unregister cap h c =
      broadcastToRoom cap
        { quizRooms := Function.update h.quizRooms c.quizID (some (room.erase c)),
          send := Function.update h.send c { h.send c with closed := true } }
        c.quizID (leaveMessage c) := by
  simp [unregister, hq, hc, Chan.close, hopen, hlen]

theorem Room.not_mem_erase (r : Room) (c : Client) : c ∉ (r.erase c).members :=
  fun hmem => (r.nodup.mem_erase_iff.mp hmem).1 rfl

theorem Room.mem_erase_of_ne (r : Room) {c x : Client} (hne : x ≠ c) :
    x ∈ (r.erase c).members ↔ x ∈ r.members :=
  List.mem_erase_of_ne hne

/-- After a successful unregistration the client is not a member of its room. -/
theorem unregister_not_member_after (cap : Nat) (h h' : Hub) (c : Client)
    (hstep : unregister cap h c = some h') : h'.isMember c.quizID c = false := by
  cases hq : h.quizRooms c.quizID with
  | none =>
    rw [unregister_no_room cap h c hq] at hstep
    cases hstep
    simp [Hub.isMember, hq]
  | some room =>
    by_cases hc : c ∈ room.members
    · by_cases hclosed : (h.send c).closed = true
      · rw [unregister_closed cap h c room hq hc hclosed] at hstep
        cases hstep
      · have hopen : (h.send c).closed = false := by simpa using hclosed
        by_cases hlen : (room.erase c).len = 0
        · rw [unregister_last cap h c room hq hc hopen hlen] at hstep
          cases hstep
          simp [Hub.isMember]
        · rw [unregister_others cap h c room hq hc hopen hlen,
            broadcastToRoom_some cap _ _ _ (room.erase c) (Function.update_same _ _ _)] at hstep
          split at hstep
          · cases hstep
            have hr := fanOut_room cap c.quizID (frameOf (leaveMessage c))
              { quizRooms := Function.update h.quizRooms c.quizID (some (room.erase c)),
                send := Function.update h.send c { h.send c with closed := true } }
              (room.erase c) (Function.update_same _ _ _)
            simp only [Hub.isMember, hr, decide_eq_false_iff_not]
            intro hmem
            exact Room.not_mem_erase room c ((Room.mem_filter _ _ c).mp hmem).1
          · cases hstep
    · rw [unregister_not_in_room cap h c room hq hc] at hstep
      cases hstep
      simp [Hub.isMember, hq, hc]

/-! ## The register case -/

theorem Room.members_insert (r : Room) (c : Client) :
    (r.insert c).members = if c ∈ r.members then r.members else r.members ++ [c] := by
  unfold Room.insert
  split <;> rfl

theorem Room.members_insert_of_not_mem (r : Room) (c : Client) (hc : c ∉ r.members) :
    (r.insert c).members = r.members ++ [c] := by
  rw [Room.members_insert, if_neg hc]

theorem Room.mem_insert (r : Room) (c x : Client) :
    x ∈ (r.insert c).members ↔ x ∈ r.members ∨ x = c := by
  rw [Room.members_insert]
  split
  · constructor
    · exact Or.inl
    · rintro (hx | rfl)
      · exact hx
      · assumption
  · simp

/-- The room the register case fans the join notice out to. -/
theorem register_eq (cap : Nat) (h : Hub) (c : Client) :
    register cap h c =
      broadcastToRoom cap
        { quizRooms := Function.update h.quizRooms c.quizID
                         (some (((h.quizRooms c.quizID).getD Room.empty).insert c)),
          send := h.send }
        c.quizID (joinMessage c) := by
  unfold register
  cases hq : h.quizRooms c.quizID with
  | none => simp [Function.update_idem]
  | some room => simp [hq]

theorem Hub.members_getD (h : Hub) (q : String) :
    ((h.quizRooms q).getD Room.empty).members = h.members q := by
  unfold Hub.members
  cases h.quizRooms q <;> rfl

theorem field_user_id (uid text : String) :
    (Value.object [("user_id", uid), ("message", text)]).field "user_id" = some uid := by
  simp [Value.field, List.lookup]

theorem Hub.isMember_iff (h : Hub) (q : String) (c : Client) :
    h.isMember q c = true ↔ c ∈ h.members q := by
  unfold Hub.isMember Hub.members
  cases h.quizRooms q <;> simp

theorem Hub.not_mem_of_isMember_false (h : Hub) (q : String) (c : Client)
    (hc : h.isMember q c = false) : c ∉ h.members q := by
  intro hmem
  rw [(Hub.isMember_iff h q c).mpr hmem] at hc
  cases hc

theorem Hub.memberCount_eq (h : Hub) (q : String) : h.memberCount q = (h.members q).length := by
  unfold Hub.memberCount Hub.members
  cases h.quizRooms q <;> rfl

/-- The register case, when every mailbox the join notice goes to is open. -/
theorem register_some (cap : Nat) (h : Hub) (c : Client)
    (hopen : ∀ x ∈ h.members c.quizID ++ [c], (h.send x).closed = false) :
    register cap h c =
      some (fanOut cap c.quizID (frameOf (joinMessage c))
        (((h.quizRooms c.quizID).getD Room.empty).insert c).members
        { quizRooms := Function.update h.quizRooms c.quizID
                         (some (((h.quizRooms c.quizID).getD Room.empty).insert c)),
          send := h.send }) := by
  rw [register_eq, broadcastToRoom_some cap _ _ _ _ (Function.update_same _ _ _), if_pos]
  intro x hx
  apply hopen
  rw [← Hub.members_getD, List.mem_append, List.mem_singleton]
  exact (Room.mem_insert _ c x).mp hx

/-- The fan-out visits a Go map in an unspecified order: whatever order the
members are visited in, the loop ends in the same hub state (or panics alike). -/
theorem broadcast_order_irrelevant (cap : Nat) (q : String) (m : Message)
    (l l' : List Client) (hp : l.Perm l') (hnd : l.Nodup) (h : Hub) :
    l.foldlM (deliver cap q m) h = l'.foldlM (deliver cap q m) h := by
  have hmem : ∀ c, c ∈ l ↔ c ∈ l' := fun c => hp.mem_iff
  rw [foldlM_deliver cap q m l hnd h, foldlM_deliver cap q m l' (hp.nodup_iff.mp hnd) h]
  have hfan : fanOut cap q (frameOf m) l h = fanOut cap q (frameOf m) l' h := by
    apply Hub.ext_fields
    · show Function.update h.quizRooms q _ = Function.update h.quizRooms q _
      refine congrArg (Function.update h.quizRooms q) ?_
      cases h.quizRooms q with
      | none => rfl
      | some room =>
        simp only [Option.map_some']
        refine congrArg some (Room.filter_congr room _ _ ?_)
        intro c _
        simp [hmem c]
    · funext c
      simp [fanOut, hmem c]
  rw [hfan]
  exact if_congr ⟨fun hall c hc => hall c ((hmem c).mpr hc),
    fun hall c hc => hall c ((hmem c).mp hc)⟩ rfl rfl

/-! ## Invariants of the reachable states -/

theorem fanOut_preserves (cap : Nat) (q : String) (f : Frame) (h : Hub) (room : Room)
    (hq : h.quizRooms q = some room) (hopen : MembersOpen h) (hhome : MembersHome h) :
    MembersOpen (fanOut cap q f room.members h) ∧ MembersHome (fanOut cap q f room.members h) := by
  constructor
  · intro q' room' hq' c hc
    by_cases hqq : q' = q
    · subst hqq
      rw [fanOut_room cap _ f h room hq] at hq'
      cases hq'
      obtain ⟨hmem, hnf⟩ := (Room.mem_filter _ _ c).mp hc
      have hnf' : (h.send c).full cap = false := by simpa using hnf
      rw [fanOut_send_mem cap _ f _ h c hmem, afterSend_of_not_full cap f _ hnf']
      exact hopen _ room hq c hmem
    · rw [fanOut_other_room cap q q' f _ h hqq] at hq'
      have hnot : c ∉ room.members := by
        intro hmem
        exact hqq ((hhome q' room' hq' c hc).symm.trans (hhome q room hq c hmem))
      rw [fanOut_send_not_mem cap q f _ h c hnot]
      exact hopen q' room' hq' c hc
  · intro q' room' hq' c hc
    by_cases hqq : q' = q
    · subst hqq
      rw [fanOut_room cap _ f h room hq] at hq'
      cases hq'
      exact hhome _ room hq c ((Room.mem_filter _ _ c).mp hc).1
    · rw [fanOut_other_room cap q q' f _ h hqq] at hq'
      exact hhome q' room' hq' c hc

theorem broadcastToRoom_preserves (cap : Nat) (h h' : Hub) (q : String) (m : Message)
    (hstep : broadcastToRoom cap h q m = some h') (hhome : MembersHome h)
    (hopen : ∀ q' room', q' ≠ q → h.quizRooms q' = some room' →
      ∀ c ∈ room'.members, (h.send c).closed = false) :
    MembersOpen h' ∧ MembersHome h' := by
  cases hq : h.quizRooms q with
  | none =>
    rw [broadcastToRoom_none cap h q m hq] at hstep
    cases hstep
    refine ⟨?_, hhome⟩
    intro q' room' hq' c hc
    by_cases hqq : q' = q
    · subst hqq; rw [hq] at hq'; cases hq'
    · exact hopen q' room' hqq hq' c hc
  | some room =>
    rw [broadcastToRoom_some cap h q m room hq] at hstep
    split at hstep
    · rename_i hall
      cases hstep
      apply fanOut_preserves cap q _ h room hq _ hhome
      intro q' room' hq' c hc
      by_cases hqq : q' = q
      · subst hqq; rw [hq] at hq'; cases hq'; exact hall c hc
      · exact hopen q' room' hqq hq' c hc
    · cases hstep

theorem register_preserves (cap : Nat) (h h' : Hub) (c : Client)
    (hstep : register cap h c = some h') (hopen : MembersOpen h) (hhome : MembersHome h) :
    MembersOpen h' ∧ MembersHome h' := by
  rw [register_eq] at hstep
  apply broadcastToRoom_preserves cap _ h' c.quizID _ hstep
  · intro q' room' hq' x hx
    have hq'' : Function.update h.quizRooms c.quizID
        (some (((h.quizRooms c.quizID).getD Room.empty).insert c)) q' = some room' := hq'
    by_cases hqq : q' = c.quizID
    · subst hqq
      rw [Function.update_same] at hq''
      cases hq''
      rcases (Room.mem_insert _ c x).mp hx with hx | rfl
      · cases hq : h.quizRooms c.quizID with
        | none => rw [hq] at hx; cases hx
        | some room => rw [hq] at hx; exact hhome _ room hq x hx
      · rfl
    · rw [Function.update_noteq hqq] at hq''
      exact hhome q' room' hq'' x hx
  · intro q' room' hqq hq' x hx
    have hq'' : Function.update h.quizRooms c.quizID
        (some (((h.quizRooms c.quizID).getD Room.empty).insert c)) q' = some room' := hq'
    rw [Function.update_noteq hqq] at hq''
    exact hopen q' room' hq'' x hx

theorem unregister_preserves (cap : Nat) (h h' : Hub) (c : Client)
    (hstep : unregister cap h c = some h') (hopen : MembersOpen h) (hhome : MembersHome h) :
    MembersOpen h' ∧ MembersHome h' := by
  cases hq : h.quizRooms c.quizID with
  | none =>
    rw [unregister_no_room cap h c hq] at hstep
    cases hstep
    exact ⟨hopen, hhome⟩
  | some room =>
    by_cases hc : c ∈ room.members
    · have hopenc : (h.send c).closed = false := hopen _ room hq c hc
      have hother_open : ∀ (r : Option Room) q' room', q' ≠ c.quizID →
          Function.update h.quizRooms c.quizID r q' = some room' →
          ∀ x ∈ room'.members,
            ((Function.update h.send c { h.send c with closed := true }) x).closed = false := by
        intro r q' room' hqq hq' x hx
        rw [Function.update_noteq hqq] at hq'
        have hxc : x ≠ c := by
          intro e
          subst e
          exact hqq (hhome q' room' hq' x hx).symm
        rw [Function.update_noteq hxc]
        exact hopen q' room' hq' x hx
      by_cases hlen : (room.erase c).len = 0
      · rw [unregister_last cap h c room hq hc hopenc hlen] at hstep
        cases hstep
        constructor
        · intro q' room' hq' x hx
          by_cases hqq : q' = c.quizID
          · subst hqq
            have hq'' : Function.update h.quizRooms c.quizID none c.quizID = some room' := hq'
            rw [Function.update_same] at hq''
            cases hq''
          · exact hother_open none q' room' hqq hq' x hx
        · intro q' room' hq' x hx
          by_cases hqq : q' = c.quizID
          · subst hqq
            have hq'' : Function.update h.quizRooms c.quizID none c.quizID = some room' := hq'
            rw [Function.update_same] at hq''
            cases hq''
          · have hq'' : Function.update h.quizRooms c.quizID none q' = some room' := hq'
            rw [Function.update_noteq hqq] at hq''
            exact hhome q' room' hq'' x hx
      · rw [unregister_others cap h c room hq hc hopenc hlen] at hstep
        apply broadcastToRoom_preserves cap _ h' c.quizID _ hstep
        · intro q' room' hq' x hx
          by_cases hqq : q' = c.quizID
          · subst hqq
            have hq'' : Function.update h.quizRooms c.quizID (some (room.erase c)) c.quizID
                = some room' := hq'
            rw [Function.update_same] at hq''
            cases hq''
            exact hhome _ room hq x (List.mem_of_mem_erase hx)
          · have hq'' : Function.update h.quizRooms c.quizID (some (room.erase c)) q'
                = some room' := hq'
            rw [Function.update_noteq hqq] at hq''
            exact hhome q' room' hq'' x hx
        · intro q' room' hqq hq' x hx
          exact hother_open _ q' room' hqq hq' x hx
    · rw [unregister_not_in_room cap h c room hq hc] at hstep
      cases hstep
      exact ⟨hopen, hhome⟩

theorem step_preserves (cap : Nat) (h h' : Hub) (e : Event)
    (hstep : step cap h e = some h') (hopen : MembersOpen h) (hhome : MembersHome h) :
    MembersOpen h' ∧ MembersHome h' := by
  cases e with
  | register c => exact register_preserves cap h h' c hstep hopen hhome
  | unregister c => exact unregister_preserves cap h h' c hstep hopen hhome
  | broadcast m =>
    have hstep' : handleMessage cap h m = some h' := hstep
    unfold handleMessage at hstep'
    have hb : ∀ s, broadcastToRoom cap h m.QuizID m = some s → MembersOpen s ∧ MembersHome s :=
      fun s hs => broadcastToRoom_preserves cap h s m.QuizID m hs hhome
        (fun q' room' _ hq' => hopen q' room' hq')
    split at hstep'
    · exact hb h' hstep'
    · split at hstep'
      · exact hb h' hstep'
      · split at hstep'
        · exact hb h' hstep'
        · cases hstep'; exact ⟨hopen, hhome⟩

theorem run_preserves (cap : Nat) (events : List Event) :
    ∀ h h', run cap h events = some h' → MembersOpen h → MembersHome h →
      MembersOpen h' ∧ MembersHome h' := by
  induction events with
  | nil =>
    intro h h' hrun hopen hhome
    cases hrun
    exact ⟨hopen, hhome⟩
  | cons e es ih =>
    intro h h' hrun hopen hhome
    have hrun' : (step cap h e >>= fun s => run cap s es) = some h' := by
      simpa [run, List.foldlM_cons] using hrun
    cases hs : step cap h e with
    | none => rw [hs] at hrun'; cases hrun'
    | some s =>
      rw [hs] at hrun'
      obtain ⟨ho, hh⟩ := step_preserves cap h s e hs hopen hhome
      exact ih s h' hrun' ho hh

/-- In every state the loop reaches from `NewHub`, whatever the events and
whatever the capacity, the members of every room have an open mailbox and
carry the session identifier of the room they are in. -/
theorem reachable_members_open (cap : Nat) (h : Hub) (hr : Reachable cap h) :
    MembersOpen h ∧ MembersHome h := by
  obtain ⟨events, hrun⟩ := hr
  apply run_preserves cap events NewHub h hrun
  · intro q room hq; cases hq
  · intro q room hq; cases hq

/-! ## What one event changes -/

theorem Hub.members_of_some (h : Hub) (q : String) (room : Room)
    (hq : h.quizRooms q = some room) : h.members q = room.members := by
  simp [Hub.members, hq]

theorem Hub.members_of_none (h : Hub) (q : String) (hq : h.quizRooms q = none) :
    h.members q = [] := by
  simp [Hub.members, hq]

/-- What a successful fan-out leaves: other rooms as they were, the members
whose mailbox was not full, every visited mailbox as `afterSend` describes and
every other mailbox untouched. -/
theorem broadcastToRoom_result (cap : Nat) (h s : Hub) (q : String) (m : Message)
    (hs : broadcastToRoom cap h q m = some s) :
    (∀ q', q' ≠ q → s.quizRooms q' = h.quizRooms q') ∧
    s.members q = (h.members q).filter (fun c => !(h.send c).full cap) ∧
    (∀ x, x ∈ h.members q → s.send x = (h.send x).afterSend cap (frameOf m)) ∧
    (∀ x, x ∉ h.members q → s.send x = h.send x) := by
  cases hq : h.quizRooms q with
  | none =>
    rw [broadcastToRoom_none cap h q m hq] at hs
    cases hs
    refine ⟨fun _ _ => rfl, ?_, ?_, fun _ _ => rfl⟩
    · rw [Hub.members_of_none h q hq]; rfl
    · intro x hx
      rw [Hub.members_of_none h q hq] at hx
      cases hx
  | some room =>
    rw [broadcastToRoom_some cap h q m room hq] at hs
    split at hs
    · cases hs
      rw [Hub.members_of_some h q room hq]
      refine ⟨fun q' hq' => fanOut_other_room cap q q' _ _ h hq', ?_, ?_, ?_⟩
      · rw [Hub.members_of_some _ q _ (fanOut_room cap q _ h room hq)]
        rfl
      · intro x hx
        exact fanOut_send_mem cap q _ _ h x hx
      · intro x hx
        exact fanOut_send_not_mem cap q _ _ h x hx
    · cases hs

/-- A successful fan-out appends the one frame to the mailbox of every member
it leaves in the room. -/
theorem broadcastToRoom_appends (cap : Nat) (h s : Hub) (q : String) (m : Message)
    (hs : broadcastToRoom cap h q m = some s) :
    ∀ x ∈ s.members q, x ∈ h.members q ∧ (s.send x).buf = (h.send x).buf ++ [frameOf m] := by
  obtain ⟨_, hmem, hsend, _⟩ := broadcastToRoom_result cap h s q m hs
  intro x hx
  rw [hmem] at hx
  obtain ⟨hin, hnf⟩ := List.mem_filter.mp hx
  have hnf' : (h.send x).full cap = false := by simpa using hnf
  refine ⟨hin, ?_⟩
  rw [hsend x hin, afterSend_of_not_full cap _ _ hnf']

/-- The effect of the register case. -/
theorem register_effect (cap : Nat) (h s : Hub) (c : Client)
    (hs : register cap h c = some s) :
    (∀ q', q' ≠ c.quizID → s.quizRooms q' = h.quizRooms q') ∧
    (∀ x, x ∉ h.members c.quizID → x ≠ c → s.send x = h.send x) ∧
    (∀ x ∈ s.members c.quizID, (x ∈ h.members c.quizID ∨ x = c) ∧
      (s.send x).buf = (h.send x).buf ++ [frameOf (joinMessage c)]) := by
  rw [register_eq] at hs
  have hmem : ∀ x, x ∈ Hub.members
      { quizRooms := Function.update h.quizRooms c.quizID
                       (some (((h.quizRooms c.quizID).getD Room.empty).insert c)),
        send := h.send } c.quizID ↔ x ∈ h.members c.quizID ∨ x = c := by
    intro x
    rw [Hub.members_of_some _ _ _ (Function.update_same _ _ _), Room.mem_insert,
      Hub.members_getD]
  obtain ⟨hrooms, _, _, hout⟩ := broadcastToRoom_result cap _ s _ _ hs
  refine ⟨?_, ?_, ?_⟩
  · intro q' hq'
    rw [hrooms q' hq']
    exact Function.update_noteq hq' _ _
  · intro x hx hxc
    apply hout x
    rw [hmem]
    rintro (h1 | h1)
    · exact hx h1
    · exact hxc h1
  · intro x hx
    obtain ⟨hin, hbuf⟩ := broadcastToRoom_appends cap _ s _ _ hs x hx
    exact ⟨(hmem x).mp hin, hbuf⟩

/-- The effect of the unregister case. -/
theorem unregister_effect (cap : Nat) (h s : Hub) (c : Client)
    (hs : unregister cap h c = some s) :
    (∀ q', q' ≠ c.quizID → s.quizRooms q' = h.quizRooms q') ∧
    (∀ x, x ≠ c → x ∉ h.members c.quizID → s.send x = h.send x) ∧
    (∃ fs : List Frame, ∀ x ∈ s.members c.quizID, x ∈ h.members c.quizID ∧
      (s.send x).buf = (h.send x).buf ++ fs) := by
  have hsame : ∀ t : Hub, t = h →
      (∀ q', q' ≠ c.quizID → t.quizRooms q' = h.quizRooms q') ∧
      (∀ x, x ≠ c → x ∉ h.members c.quizID → t.send x = h.send x) ∧
      (∃ fs : List Frame, ∀ x ∈ t.members c.quizID, x ∈ h.members c.quizID ∧
        (t.send x).buf = (h.send x).buf ++ fs) := by
    intro t ht
    subst ht
    exact ⟨fun _ _ => rfl, fun _ _ _ => rfl, [], fun x hx => ⟨hx, by simp⟩⟩
  cases hq : h.quizRooms c.quizID with
  | none =>
    rw [unregister_no_room cap h c hq] at hs
    exact hsame s (Option.some.inj hs).symm
  | some room =>
    by_cases hc : c ∈ room.members
    · by_cases hclosed : (h.send c).closed = true
      · rw [unregister_closed cap h c room hq hc hclosed] at hs
        cases hs
      · have hopen : (h.send c).closed = false := by simpa using hclosed
        by_cases hlen : (room.erase c).len = 0
        · rw [unregister_last cap h c room hq hc hopen hlen] at hs
          cases hs
          refine ⟨fun q' hq' => Function.update_noteq hq' _ _,
            fun x hxc _ => Function.update_noteq hxc _ _, [], ?_⟩
          intro x hx
          rw [Hub.members_of_none _ _ (Function.update_same _ _ _)] at hx
          cases hx
        · rw [unregister_others cap h c room hq hc hopen hlen] at hs
          obtain ⟨hrooms, _, _, hout⟩ := broadcastToRoom_result cap _ s _ _ hs
          have hmem1 : Hub.members
              { quizRooms := Function.update h.quizRooms c.quizID (some (room.erase c)),
                send := Function.update h.send c { h.send c with closed := true } } c.quizID
              = (room.erase c).members :=
            Hub.members_of_some _ _ _ (Function.update_same _ _ _)
          refine ⟨?_, ?_, [frameOf (leaveMessage c)], ?_⟩
          · intro q' hq'
            rw [hrooms q' hq']
            exact Function.update_noteq hq' _ _
          · intro x hxc hx
            rw [hout x]
            · exact Function.update_noteq hxc _ _
            · rw [hmem1]
              intro hin
              apply hx
              rw [Hub.members_of_some h _ room hq]
              exact List.mem_of_mem_erase hin
          · intro x hx
            obtain ⟨hin, hbuf⟩ := broadcastToRoom_appends cap _ s _ _ hs x hx
            rw [hmem1] at hin
            have hxc : x ≠ c := fun e => Room.not_mem_erase room c (e ▸ hin)
            refine ⟨?_, ?_⟩
            · rw [Hub.members_of_some h _ room hq]
              exact List.mem_of_mem_erase hin
            · rw [hbuf]
              show ((Function.update h.send c { h.send c with closed := true }) x).buf ++ _ = _
              rw [Function.update_noteq hxc]
    · rw [unregister_not_in_room cap h c room hq hc] at hs
      exact hsame s (Option.some.inj hs).symm

/-- The effect of an inbound message. -/
theorem handleMessage_effect (cap : Nat) (h s : Hub) (m : Message)
    (hs : handleMessage cap h m = some s) :
    (∀ q', q' ≠ m.QuizID → s.quizRooms q' = h.quizRooms q') ∧
    (∀ x, x ∉ h.members m.QuizID → s.send x = h.send x) ∧
    (∃ fs : List Frame, ∀ x ∈ s.members m.QuizID, x ∈ h.members m.QuizID ∧
      (s.send x).buf = (h.send x).buf ++ fs) := by
  have hb : broadcastToRoom cap h m.QuizID m = some s →
      (∀ q', q' ≠ m.QuizID → s.quizRooms q' = h.quizRooms q') ∧
      (∀ x, x ∉ h.members m.QuizID → s.send x = h.send x) ∧
      (∃ fs : List Frame, ∀ x ∈ s.members m.QuizID, x ∈ h.members m.QuizID ∧
        (s.send x).buf = (h.send x).buf ++ fs) := by
    intro hbs
    obtain ⟨hrooms, _, _, hout⟩ := broadcastToRoom_result cap h s _ _ hbs
    exact ⟨hrooms, hout, [frameOf m], broadcastToRoom_appends cap h s _ _ hbs⟩
  unfold handleMessage at hs
  split at hs
  · exact hb hs
  · split at hs
    · exact hb hs
    · split at hs
      · exact hb hs
      · cases hs
        exact ⟨fun _ _ => rfl, fun _ _ => rfl, [], fun x hx => ⟨hx, by simp⟩⟩

/-- What one event changes: rooms of other sessions are left as they are,
mailboxes of clients that are neither in the event's room nor the event's handle
are left as they are, members of the event's room afterwards were members
before or have just registered, and all of them have had the same frames
appended. -/
theorem step_effect (cap : Nat) (h s : Hub) (e : Event) (hs : step cap h e = some s) :
    (∀ q', q' ≠ e.session → s.quizRooms q' = h.quizRooms q') ∧
    (∀ x, x ∉ h.members e.session → e.handle ≠ some x → s.send x = h.send x) ∧
    (∀ x ∈ s.members e.session, x ∈ h.members e.session ∨ e = .register x) ∧
    (∃ fs : List Frame, ∀ x ∈ s.members e.session,
      (s.send x).buf = (h.send x).buf ++ fs) := by
  cases e with
  | register c =>
    obtain ⟨h1, h2, h3⟩ := register_effect cap h s c hs
    refine ⟨h1, ?_, ?_, [frameOf (joinMessage c)], fun x hx => (h3 x hx).2⟩
    · intro x hx hne
      exact h2 x hx (fun e => hne (by rw [e]; rfl))
    · intro x hx
      rcases (h3 x hx).1 with hin | rfl
      · exact Or.inl hin
      · exact Or.inr rfl
  | unregister c =>
    obtain ⟨h1, h2, fs, h3⟩ := unregister_effect cap h s c hs
    refine ⟨h1, ?_, fun x hx => Or.inl (h3 x hx).1, fs, fun x hx => (h3 x hx).2⟩
    intro x hx hne
    exact h2 x (fun e => hne (by rw [e]; rfl)) hx
  | broadcast m =>
    obtain ⟨h1, h2, fs, h3⟩ := handleMessage_effect cap h s m hs
    exact ⟨h1, fun x hx _ => h2 x hx, fun x hx => Or.inl (h3 x hx).1, fs,
      fun x hx => (h3 x hx).2⟩

/-! ## Sequences of events -/

theorem run_nil (cap : Nat) (h : Hub) : run cap h [] = some h := rfl

theorem run_cons (cap : Nat) (h : Hub) (e : Event) (es : List Event) :
    run cap h (e :: es) = (step cap h e).bind (fun s => run cap s es) := rfl

theorem run_cons_some (cap : Nat) (h s : Hub) (e : Event) (es : List Event)
    (hs : step cap h e = some s) : run cap h (e :: es) = run cap s es := by
  rw [run_cons, hs]; rfl

theorem MembersHome.quizID_eq {h : Hub} (hhome : MembersHome h) {q : String} {c : Client}
    (hc : c ∈ h.members q) : c.quizID = q := by
  cases hq : h.quizRooms q with
  | none => rw [Hub.members_of_none h q hq] at hc; cases hc
  | some room =>
    rw [Hub.members_of_some h q room hq] at hc
    exact hhome q room hq c hc

theorem Event.session_of_handle {e : Event} {c : Client} (he : e.handle = some c) :
    e.session = c.quizID := by
  cases e with
  | register c' => cases he; rfl
  | unregister c' => cases he; rfl
  | broadcast m => cases he

theorem Hub.members_congr {h s : Hub} {q : String} (hq : s.quizRooms q = h.quizRooms q) :
    s.members q = h.members q := by
  unfold Hub.members
  rw [hq]

/-- One event keeps every member in the room of its own session. -/
theorem step_preserves_home (cap : Nat) (h s : Hub) (e : Event)
    (hs : step cap h e = some s) (hhome : MembersHome h) : MembersHome s := by
  obtain ⟨hrooms, _, hmem, _⟩ := step_effect cap h s e hs
  intro q room hq c hc
  by_cases hqe : q = e.session
  · subst hqe
    have hc' : c ∈ s.members e.session := by
      rw [Hub.members_of_some s _ room hq]; exact hc
    rcases hmem c hc' with hin | hreg
    · exact hhome.quizID_eq hin
    · rw [hreg]; rfl
  · rw [hrooms q hqe] at hq
    exact hhome q room hq c hc

theorem broadcastToRoom_total (cap : Nat) (h : Hub) (q : String) (m : Message)
    (hopen : ∀ x ∈ h.members q, (h.send x).closed = false) :
    ∃ s, broadcastToRoom cap h q m = some s := by
  cases hq : h.quizRooms q with
  | none => exact ⟨h, broadcastToRoom_none cap h q m hq⟩
  | some room =>
    rw [Hub.members_of_some h q room hq] at hopen
    exact ⟨_, by rw [broadcastToRoom_some cap h q m room hq, if_pos hopen]⟩

/-- An event is handled to completion when the mailboxes of the members of
its room are open and, for a register request, so is the handle's own. -/
theorem step_total (cap : Nat) (h : Hub) (e : Event)
    (hopen : ∀ x ∈ h.members e.session, (h.send x).closed = false)
    (hreg : ∀ c, e = .register c → (h.send c).closed = false) :
    ∃ s, step cap h e = some s := by
  cases e with
  | register c =>
    refine ⟨_, register_some cap h c ?_⟩
    intro x hx
    rcases List.mem_append.mp hx with hx | hx
    · exact hopen x hx
    · rw [List.mem_singleton.mp hx]; exact hreg c rfl
  | unregister c =>
    show ∃ s, unregister cap h c = some s
    cases hq : h.quizRooms c.quizID with
    | none => exact ⟨h, unregister_no_room cap h c hq⟩
    | some room =>
      have hopen' : ∀ x ∈ room.members, (h.send x).closed = false := by
        intro x hx
        apply hopen x
        show x ∈ h.members c.quizID
        rw [Hub.members_of_some h _ room hq]; exact hx
      by_cases hc : c ∈ room.members
      · by_cases hlen : (room.erase c).len = 0
        · exact ⟨_, unregister_last cap h c room hq hc (hopen' c hc) hlen⟩
        · rw [unregister_others cap h c room hq hc (hopen' c hc) hlen]
          apply broadcastToRoom_total
          intro x hx
          rw [Hub.members_of_some _ _ _ (Function.update_same _ _ _)] at hx
          have hxc : x ≠ c := fun e => Room.not_mem_erase room c (e ▸ hx)
          show ((Function.update h.send c { h.send c with closed := true }) x).closed = false
          rw [Function.update_noteq hxc]
          exact hopen' x (List.mem_of_mem_erase hx)
      · exact ⟨h, unregister_not_in_room cap h c room hq hc⟩
  | broadcast m =>
    show ∃ s, handleMessage cap h m = some s
    have hb := broadcastToRoom_total cap h m.QuizID m hopen
    unfold handleMessage
    split
    · exact hb
    · split
      · exact hb
      · split
        · exact hb
        · exact ⟨h, rfl⟩

theorem MembersOpen.of_members {h : Hub} (hopen : MembersOpen h) (q : String) :
    ∀ x ∈ h.members q, (h.send x).closed = false := by
  intro x hx
  cases hq : h.quizRooms q with
  | none => rw [Hub.members_of_none h q hq] at hx; cases hx
  | some room =>
    rw [Hub.members_of_some h q room hq] at hx
    exact hopen q room hq x hx

/-- The loop handles every event of a sequence in which no handle is
registered twice, when it starts in a state whose members have open mailboxes
and the handles still to be registered are in no room and have an open
mailbox; the members have open mailboxes after every prefix. -/
theorem run_total (cap : Nat) :
    ∀ (es : List Event) (h : Hub), MembersOpen h → MembersHome h →
      (registrations es).Nodup →
      (∀ c ∈ registrations es, (h.send c).closed = false ∧ ∀ q, c ∉ h.members q) →
      ∀ n, ∃ s, run cap h (es.take n) = some s ∧ MembersOpen s := by
  intro es
  induction es with
  | nil =>
    intro h hopen _ _ _ n
    exact ⟨h, by simp [run_nil], hopen⟩
  | cons e es ih =>
    intro h hopen hhome hnd hfresh n
    cases n with
    | zero => exact ⟨h, by simp [run_nil], hopen⟩
    | succ n =>
      have hreg : ∀ c, e = .register c → (h.send c).closed = false := by
        intro c hc
        subst hc
        exact (hfresh c (List.mem_cons_self _ _)).1
      obtain ⟨s, hs⟩ := step_total cap h e (hopen.of_members _) hreg
      obtain ⟨hopen', hhome'⟩ := step_preserves cap h s e hs hopen hhome
      obtain ⟨hrooms, hsend, hmem, _⟩ := step_effect cap h s e hs
      have hsub : ∀ c ∈ registrations es, c ∈ registrations (e :: es) := by
        intro c hc
        cases e with
        | register c' => exact List.mem_cons_of_mem _ hc
        | unregister c' => exact hc
        | broadcast m => exact hc
      have hnd' : (registrations es).Nodup := by
        cases e with
        | register c' => exact (List.nodup_cons.mp hnd).2
        | unregister c' => exact hnd
        | broadcast m => exact hnd
      have hnotreg : ∀ c ∈ registrations es, e ≠ .register c := by
        intro c hc he
        subst he
        exact (List.nodup_cons.mp hnd).1 hc
      have hfresh' : ∀ c ∈ registrations es,
          (s.send c).closed = false ∧ ∀ q, c ∉ s.members q := by
        intro c hc
        obtain ⟨hco, hcm⟩ := hfresh c (hsub c hc)
        constructor
        · by_cases hh : e.handle = some c
          · cases e with
            | register c' =>
              cases hh
              exact absurd rfl (hnotreg c hc)
            | unregister c' =>
              cases hh
              have hno : h.isMember c.quizID c = false := by
                cases hm : h.isMember c.quizID c with
                | false => rfl
                | true => exact absurd ((Hub.isMember_iff h _ _).mp hm) (hcm _)
              have hs' : unregister cap h c = some s := hs
              rw [unregister_of_not_member cap h c hno] at hs'
              cases hs'
              exact hco
            | broadcast m => cases hh
          · rw [hsend c (hcm _) hh]; exact hco
        · intro q hq
          by_cases hqe : q = e.session
          · subst hqe
            rcases hmem c hq with hin | he
            · exact hcm _ hin
            · exact hnotreg c hc he
          · rw [Hub.members_congr (hrooms q hqe)] at hq
            exact hcm q hq
      obtain ⟨s', hs', ho'⟩ := ih s hopen' hhome' hnd' hfresh' n
      refine ⟨s', ?_, ho'⟩
      rw [List.take_succ_cons, run_cons_some cap h s e _ hs]
      exact hs'

/-- One event appends the same frames to the mailboxes of two clients that
are in room `q` before and after it. -/
theorem step_same_frames (cap : Nat) (h s : Hub) (e : Event) (q : String) (a b : Client)
    (hs : step cap h e = some s) (hhome : MembersHome h)
    (ha : a ∈ h.members q) (hb : b ∈ h.members q)
    (ha' : a ∈ s.members q) (hb' : b ∈ s.members q) :
    ∃ fs : List Frame, (s.send a).buf = (h.send a).buf ++ fs ∧
      (s.send b).buf = (h.send b).buf ++ fs := by
  obtain ⟨_, hsend, _, fs, hfs⟩ := step_effect cap h s e hs
  by_cases hq : e.session = q
  · subst hq
    exact ⟨fs, hfs a ha', hfs b hb'⟩
  · have hout : ∀ x, x ∈ h.members q → s.send x = h.send x := by
      intro x hx
      apply hsend x
      · intro hin
        exact hq ((hhome.quizID_eq hin).symm.trans (hhome.quizID_eq hx))
      · intro hh
        exact hq ((Event.session_of_handle hh).trans (hhome.quizID_eq hx))
    exact ⟨[], by rw [hout a ha]; simp, by rw [hout b hb]; simp⟩

/-! ## The claims

The statements below take the mailboxes they send to as open.  That is no
restriction on the states of the program: by `reachable_members_open` every
member of every room has an open mailbox in every state the loop reaches, and a
handle is registered with the channel `make` gave it.  A member with a closed
mailbox would make the Go code panic, which the embedding renders as `none`.
-/

/-- C1 (the code departs from it): a room can stay a key of `quizRooms` with no
member left.  With capacity 1, after alice registers her mailbox holds the join
notice and is full, so the next dispatched question drops her and the key `Q1`
stays with zero members.  With capacity 2 the same state is reached by register
and unregister events alone: after alice and bob register, alice's mailbox is
full, and the leave notice of bob's unregistration drops her. -/
theorem room_key_survives_last_member :
    (run 1 NewHub [.register alice, .broadcast question]).map
        (fun h => (h.hasRoom "Q1", h.memberCount "Q1")) = some (true, 0) ∧
    (run 2 NewHub [.register alice, .register bob, .unregister bob]).map
        (fun h => (h.hasRoom "Q1", h.memberCount "Q1")) = some (true, 0) := by
  constructor <;> decide

/-- C2: when every member of the target room has an open mailbox that is not
full, dispatching an answer, question or result envelope succeeds, appends the
one frame `frameOf m` at the tail of every member's mailbox, that frame carries
the envelope's quiz_id, type, content and user_id unchanged, and the room is
the same room afterwards. -/
theorem dispatch_delivers_to_all (cap : Nat) (h : Hub) (m : Message) (room : Room)
    (hroom : h.quizRooms m.QuizID = some room)
    (hkind : m.Type_ = "answer" ∨ m.Type_ = "question" ∨ m.Type_ = "result")
    (hopen : ∀ c ∈ room.members, (h.send c).closed = false)
    (hfree : ∀ c ∈ room.members, (h.send c).full cap = false) :
    ∃ h', step cap h (.broadcast m) = some h' ∧
      (∀ c ∈ room.members,
        h'.send c = { h.send c with buf := (h.send c).buf ++ [frameOf m] }) ∧
      ((frameOf m).quiz_id = m.QuizID ∧ (frameOf m).type = m.Type_ ∧
        (frameOf m).content = m.Content ∧ (frameOf m).user_id = m.UserID) ∧
      h'.quizRooms m.QuizID = some room := by
  refine ⟨fanOut cap m.QuizID (frameOf m) room.members h, ?_, ?_, ⟨rfl, rfl, rfl, rfl⟩, ?_⟩
  · show handleMessage cap h m = _
    rw [handleMessage_of_kind cap h m hkind, broadcastToRoom_some cap h _ m room hroom,
      if_pos hopen]
  · intro c hc
    rw [fanOut_send_mem cap _ _ _ h c hc, afterSend_of_not_full cap _ _ (hfree c hc)]
  · rw [fanOut_room cap _ _ h room hroom, Room.filter_true]
    intro c hc
    simp [hfree c hc]

/-- Witness for C2: the scenario of the specification, alice and bob in room
`Q1` with capacity 2. -/
theorem dispatch_delivers_to_all_witness :
    ∃ h', step 2 twoInRoom (.broadcast question) = some h' ∧
      (h'.send alice).buf = [frameOf question] ∧ (h'.send bob).buf = [frameOf question] ∧
      h'.members "Q1" = [alice, bob] := by
  obtain ⟨h', hstep, hsend, _, hroom⟩ :=
    dispatch_delivers_to_all 2 twoInRoom question ⟨[alice, bob], by decide⟩ rfl
      (by decide) (by decide) (by decide)
  refine ⟨h', hstep, ?_, ?_, ?_⟩
  · rw [hsend alice (by decide)]; rfl
  · rw [hsend bob (by decide)]; rfl
  · show Hub.members h' question.QuizID = _
    simp only [Hub.members, hroom]

/-- C3: for any mix of full and non-full (open) mailboxes in the target room,
dispatching an answer, question or result envelope succeeds; the handles still
in the room afterwards are handles that were in it, and each of them has had
exactly the one frame appended; each handle the fan-out dropped has the mailbox
contents it had before; and every member whose mailbox was not full is still a
member and has received the frame, whatever the state of the others. -/
theorem dispatch_one_copy_to_each_remaining (cap : Nat) (h : Hub) (m : Message) (room : Room)
    (hroom : h.quizRooms m.QuizID = some room)
    (hkind : m.Type_ = "answer" ∨ m.Type_ = "question" ∨ m.Type_ = "result")
    (hopen : ∀ c ∈ room.members, (h.send c).closed = false) :
    ∃ h' room', step cap h (.broadcast m) = some h' ∧
      h'.quizRooms m.QuizID = some room' ∧
      (∀ c ∈ room'.members, c ∈ room.members ∧
        h'.send c = { h.send c with buf := (h.send c).buf ++ [frameOf m] }) ∧
      (∀ c ∈ room.members, c ∉ room'.members → (h'.send c).buf = (h.send c).buf) ∧
      (∀ c ∈ room.members, (h.send c).full cap = false →
        c ∈ room'.members ∧ (h'.send c).buf = (h.send c).buf ++ [frameOf m]) := by
  refine ⟨fanOut cap m.QuizID (frameOf m) room.members h,
    room.filter (fun c => !(h.send c).full cap), ?_, ?_, ?_, ?_, ?_⟩
  · show handleMessage cap h m = _
    rw [handleMessage_of_kind cap h m hkind, broadcastToRoom_some cap h _ m room hroom,
      if_pos hopen]
  · exact fanOut_room cap _ _ h room hroom
  · intro c hc
    obtain ⟨hmem, hnf⟩ := (Room.mem_filter _ _ c).mp hc
    have hnf' : (h.send c).full cap = false := by simpa using hnf
    exact ⟨hmem, by rw [fanOut_send_mem cap _ _ _ h c hmem, afterSend_of_not_full cap _ _ hnf']⟩
  · intro c hmem hout
    have hfull : (h.send c).full cap = true := by
      by_contra hne
      exact hout ((Room.mem_filter _ _ c).mpr ⟨hmem, by simpa using hne⟩)
    rw [fanOut_send_mem cap _ _ _ h c hmem, afterSend_of_full cap _ _ hfull]
  · intro c hmem hnf
    refine ⟨(Room.mem_filter _ _ c).mpr ⟨hmem, by simp [hnf]⟩, ?_⟩
    rw [fanOut_send_mem cap _ _ _ h c hmem, afterSend_of_not_full cap _ _ hnf]

/-- Witness for C3: capacity 1, alice's mailbox full, bob's and carol's empty:
alice is dropped with her mailbox as it was, bob and carol get the frame. -/
theorem dispatch_one_copy_to_each_remaining_witness :
    ∃ h', step 1 threeInRoom (.broadcast question) = some h' ∧
      h'.isMember "Q1" alice = false ∧ (h'.send alice).buf = [frameOf question] ∧
      h'.isMember "Q1" bob = true ∧ (h'.send bob).buf = [frameOf question] ∧
      h'.isMember "Q1" carol = true ∧ (h'.send carol).buf = [frameOf question] := by
  obtain ⟨h', room', hstep, hroom, hin, hout, hfree⟩ :=
    dispatch_one_copy_to_each_remaining 1 threeInRoom question ⟨[alice, bob, carol], by decide⟩
      rfl (by decide) (by decide)
  have hb := hfree bob (by decide) (by decide)
  have hc := hfree carol (by decide) (by decide)
  have ha : alice ∉ room'.members := by
    intro hmem
    have := congrArg Chan.buf (hin alice hmem).2
    have hb : (h'.send alice).buf.length = 2 := by rw [this]; rfl
    have hstep' : step 1 threeInRoom (.broadcast question) = some h' := hstep
    have hev : (step 1 threeInRoom (.broadcast question)).map
        (fun s => (s.send alice).buf.length) = some 1 := by decide
    rw [hstep'] at hev
    simp only [Option.map_some', Option.some.injEq] at hev
    omega
  have hroom' : h'.quizRooms "Q1" = some room' := hroom
  refine ⟨h', hstep, ?_, ?_, ?_, ?_, ?_, ?_⟩
  · simp [Hub.isMember, hroom', ha]
  · rw [hout alice (by decide) ha]; rfl
  · simp [Hub.isMember, hroom', hb.1]
  · rw [hb.2]; rfl
  · simp [Hub.isMember, hroom', hc.1]
  · rw [hc.2]; rfl

/-- C4: a fan-out of an answer, question or result envelope over a room whose
members have open mailboxes leaves as members exactly the former members whose
mailbox was not full, and closes the mailbox of every member whose mailbox was
full.  In particular, when one member's mailbox holds `cap` items and no other
member's mailbox is full, exactly that member is removed, its mailbox is closed
and the room has one member fewer. -/
theorem dispatch_drops_exactly_full_members (cap : Nat) (h : Hub) (m : Message) (room : Room)
    (hroom : h.quizRooms m.QuizID = some room)
    (hkind : m.Type_ = "answer" ∨ m.Type_ = "question" ∨ m.Type_ = "result")
    (hopen : ∀ c ∈ room.members, (h.send c).closed = false) :
    ∃ h' room', step cap h (.broadcast m) = some h' ∧
      h'.quizRooms m.QuizID = some room' ∧
      room'.members = room.members.filter (fun c => !(h.send c).full cap) ∧
      (∀ c ∈ room.members, (h.send c).full cap = true →
        c ∉ room'.members ∧ (h'.send c).closed = true) ∧
      (∀ c ∈ room.members, (h.send c).buf.length = cap →
        (∀ x ∈ room.members, x ≠ c → (h.send x).full cap = false) →
        room'.members = room.members.erase c ∧ room'.len + 1 = room.len ∧
          (h'.send c).closed = true) := by
  have hclosed : ∀ c ∈ room.members, (h.send c).full cap = true →
      ((fanOut cap m.QuizID (frameOf m) room.members h).send c).closed = true := by
    intro c hmem hfull
    rw [fanOut_send_mem cap _ _ _ h c hmem, afterSend_of_full cap _ _ hfull]
  refine ⟨fanOut cap m.QuizID (frameOf m) room.members h,
    room.filter (fun c => !(h.send c).full cap), ?_, ?_, rfl, ?_, ?_⟩
  · show handleMessage cap h m = _
    rw [handleMessage_of_kind cap h m hkind, broadcastToRoom_some cap h _ m room hroom,
      if_pos hopen]
  · exact fanOut_room cap _ _ h room hroom
  · intro c hmem hfull
    refine ⟨fun hin => ?_, hclosed c hmem hfull⟩
    have := ((Room.mem_filter _ _ c).mp hin).2
    simp [hfull] at this
  · intro c hmem hlen hothers
    have hfull : (h.send c).full cap = true := by simp [Chan.full, hlen]
    have hmembers : (room.filter (fun c => !(h.send c).full cap)).members
        = room.members.erase c := by
      show room.members.filter _ = _
      rw [room.nodup.erase_eq_filter]
      apply List.filter_congr
      intro x hx
      by_cases hxc : x = c
      · subst hxc; simp [hfull]
      · simp [hothers x hx hxc, hxc]
    refine ⟨hmembers, ?_, hclosed c hmem hfull⟩
    show (room.filter _).members.length + 1 = room.members.length
    rw [hmembers, List.length_erase_of_mem hmem]
    have : 0 < room.members.length := List.length_pos_of_mem hmem
    omega

/-- Witness for C4: capacity 1, alice's mailbox holds one item, bob's and
carol's none: the dispatch removes alice alone and closes her mailbox. -/
theorem dispatch_drops_exactly_full_members_witness :
    ∃ h', step 1 threeInRoom (.broadcast question) = some h' ∧
      h'.members "Q1" = [bob, carol] ∧ h'.memberCount "Q1" + 1 = 3 ∧
      (h'.send alice).closed = true := by
  obtain ⟨h', room', hstep, hroom, _, _, hone⟩ :=
    dispatch_drops_exactly_full_members 1 threeInRoom question ⟨[alice, bob, carol], by decide⟩
      rfl (by decide) (by decide)
  obtain ⟨hmem, hlen, hcl⟩ := hone alice (by decide) (by decide) (by decide)
  have hroom' : h'.quizRooms "Q1" = some room' := hroom
  refine ⟨h', hstep, ?_, ?_, hcl⟩
  · simp only [Hub.members, hroom', hmem]; decide
  · simp only [Hub.memberCount, hroom']; exact hlen

/-- C5 (the code departs from it): a member dropped for a full mailbox is not
removed as if it had disconnected.  With capacity 2 and alice and bob
registered, alice's mailbox is full.  A dispatched question drops her: she is
out of the room and her mailbox is closed, but bob's mailbox holds his join
notice and the question and no leave notice, and the `Unregister(alice)` that
the teardown of her connection issues afterwards finds her gone and changes
nothing, so bob is never told.  Had alice been unregistered instead of
dropped, bob's mailbox would hold the leave notice.  Likewise with capacity 1
and alice alone: after the drop, and after her later unregistration, the key
`Q1` is still in the registry, while unregistering her as a member deletes
it. -/
theorem drop_differs_from_unregister :
    (run 2 NewHub [.register alice, .register bob, .broadcast question]).map
        (fun s => (s.isMember "Q1" alice, (s.send alice).closed,
          (s.send bob).buf.map Frame.type)) = some (false, true, ["join", "question"]) ∧
    (run 2 NewHub [.register alice, .register bob, .broadcast question,
        .unregister alice]).map
        (fun s => (s.isMember "Q1" alice, (s.send alice).closed,
          (s.send bob).buf.map Frame.type)) = some (false, true, ["join", "question"]) ∧
    (run 2 NewHub [.register alice, .register bob, .unregister alice]).map
        (fun s => (s.isMember "Q1" alice, (s.send alice).closed,
          (s.send bob).buf.map Frame.type)) = some (false, true, ["join", "leave"]) ∧
    (run 1 NewHub [.register alice, .broadcast question, .unregister alice]).map
        (fun s => (s.hasRoom "Q1", s.memberCount "Q1")) = some (true, 0) ∧
    (run 1 NewHub [.register alice, .unregister alice]).map
        (fun s => (s.hasRoom "Q1", s.memberCount "Q1")) = some (false, 0) := by
  refine ⟨?_, ?_, ?_, ?_, ?_⟩ <;> decide

/-- All that the `default` branch of `broadcastToRoom` does: when the fan-out
over room `q` reaches a client whose mailbox is open and full, the visit
succeeds, closes that mailbox leaving its contents as they were, and removes
the client from room `q`; every other client keeps its membership of `q` and
its mailbox, so no leave notice is enqueued, and every other room is
untouched. -/
theorem drop_closes_and_removes_only (cap : Nat) (q : String) (m : Message) (h : Hub)
    (c : Client) (hopen : (h.send c).closed = false) (hfull : (h.send c).full cap = true) :
    ∃ h', deliver cap q m h c = some h' ∧
      h'.send c = { h.send c with closed := true } ∧
      h'.isMember q c = false ∧
      (∀ x, x ≠ c → h'.isMember q x = h.isMember q x ∧ h'.send x = h.send x) ∧
      (∀ q', q' ≠ q → h'.quizRooms q' = h.quizRooms q') := by
  have hlen : ¬ (h.send c).buf.length < cap := by
    have : cap ≤ (h.send c).buf.length := by simpa [Chan.full] using hfull
    omega
  refine ⟨_, deliver_full cap q m h c hopen hlen, ?_, ?_, ?_, ?_⟩
  · exact Function.update_same _ _ _
  · simp only [Hub.isMember, Function.update_same]
    cases hq : h.quizRooms q with
    | none => rfl
    | some room => simp [Room.not_mem_erase]
  · intro x hx
    refine ⟨?_, Function.update_noteq hx _ _⟩
    simp only [Hub.isMember, Function.update_same]
    cases hq : h.quizRooms q with
    | none => rfl
    | some room => simp [Room.mem_erase_of_ne room hx]
  · intro q' hq'
    exact Function.update_noteq hq' _ _

/-- The `default` branch at a concrete state: capacity 1, alice's mailbox holds
one item; the visit of alice leaves bob a member with an empty mailbox. -/
theorem drop_closes_and_removes_only_witness :
    ∃ h', deliver 1 "Q1" question threeInRoom alice = some h' ∧
      h'.send alice = ⟨[frameOf question], true⟩ ∧ h'.isMember "Q1" alice = false ∧
      h'.isMember "Q1" bob = true ∧ (h'.send bob).buf = [] := by
  obtain ⟨h', hd, hsend, hout, hrest, _⟩ :=
    drop_closes_and_removes_only 1 "Q1" question threeInRoom alice (by decide) (by decide)
  obtain ⟨hbm, hbs⟩ := hrest bob (by decide)
  refine ⟨h', hd, ?_, hout, ?_, ?_⟩
  · rw [hsend]; rfl
  · rw [hbm]; decide
  · rw [hbs]; rfl

/-- C6: handling `Unregister(c)` twice in a row gives exactly what handling it
once gives (the same hub state, or the same panic), and `Unregister` of a
client that is not a member of the room of its session leaves the hub state
unchanged. -/
theorem unregister_idempotent (cap : Nat) (h : Hub) (c : Client) :
    run cap h [.unregister c, .unregister c] = run cap h [.unregister c] ∧
    (h.isMember c.quizID c = false → step cap h (.unregister c) = some h) := by
  constructor
  · show (step cap h (.unregister c) >>= fun s =>
        (step cap s (.unregister c) >>= fun s' => pure s'))
      = (step cap h (.unregister c) >>= fun s => pure s)
    cases hstep : step cap h (.unregister c) with
    | none => rfl
    | some h' =>
      have h2 : step cap h' (.unregister c) = some h' :=
        unregister_of_not_member cap h' c (unregister_not_member_after cap h h' c hstep)
      show (step cap h' (.unregister c) >>= fun s' => pure s') = some h'
      rw [h2]
      rfl
  · exact unregister_of_not_member cap h c

/-- Witness for C6: in room `Q1` of alice and bob the second unregistration of
alice changes nothing, and carol, who never registered, can be unregistered
without effect. -/
theorem unregister_idempotent_witness :
    run 2 twoInRoom [.unregister alice, .unregister alice] = run 2 twoInRoom [.unregister alice] ∧
    step 2 twoInRoom (.unregister carol) = some twoInRoom :=
  ⟨(unregister_idempotent 2 twoInRoom alice).1,
   (unregister_idempotent 2 twoInRoom carol).2 (by decide)⟩

/-- C7: when `c` is the only member of the room of its session and its mailbox
is open, handling `Unregister(c)` succeeds, removes the key of that session
from the registry, closes the mailbox of `c`, and enqueues nothing: every
mailbox holds the items it held, and every other client's mailbox is exactly as
it was. -/
theorem unregister_sole_member_deletes_room (cap : Nat) (h : Hub) (c : Client) (room : Room)
    (hq : h.quizRooms c.quizID = some room) (hsole : room.members = [c])
    (hopen : (h.send c).closed = false) :
    ∃ h', step cap h (.unregister c) = some h' ∧
      h'.quizRooms c.quizID = none ∧ h'.hasRoom c.quizID = false ∧
      h'.send c = { h.send c with closed := true } ∧
      (∀ x, (h'.send x).buf = (h.send x).buf) ∧
      (∀ x, x ≠ c → h'.send x = h.send x) := by
  have hc : c ∈ room.members := by rw [hsole]; exact List.mem_singleton.mpr rfl
  have hlen : (room.erase c).len = 0 := by
    show (room.members.erase c).length = 0
    rw [hsole]; simp
  refine ⟨_, unregister_last cap h c room hq hc hopen hlen, ?_, ?_, ?_, ?_, ?_⟩
  · exact Function.update_same _ _ _
  · simp [Hub.hasRoom]
  · exact Function.update_same _ _ _
  · intro x
    by_cases hx : x = c
    · subst hx; simp
    · simp [Function.update_noteq hx]
  · intro x hx
    exact Function.update_noteq hx _ _

/-- Witness for C7: the scenario of the specification, alice alone in `Q1`. -/
theorem unregister_sole_member_deletes_room_witness :
    ∃ h', step 2 aliceAlone (.unregister alice) = some h' ∧
      h'.hasRoom "Q1" = false ∧ (h'.send alice).closed = true ∧
      (h'.send alice).buf = [] ∧ (h'.send bob).buf = [] := by
  obtain ⟨h', hstep, _, hno, hsend, hbuf, _⟩ :=
    unregister_sole_member_deletes_room 2 aliceAlone alice ⟨[alice], by decide⟩ rfl rfl
      (by decide)
  refine ⟨h', hstep, hno, ?_, ?_, ?_⟩
  · rw [hsend]
  · rw [hbuf alice]; rfl
  · rw [hbuf bob]; rfl

/-- C8: when `c` is a member of the room of its session together with at least
one other member, all mailboxes of the room are open and no other member's
mailbox is full, handling `Unregister(c)` succeeds, leaves as the room the
former room without `c` (every other member stays), closes the mailbox of `c`
without enqueuing anything on it, and appends to the mailbox of each remaining
member exactly one frame: the leave notice of that session, whose content names
`c.userID` as user_id. -/
theorem unregister_notifies_remaining (cap : Nat) (h : Hub) (c : Client) (room : Room)
    (hq : h.quizRooms c.quizID = some room) (hc : c ∈ room.members)
    (hother : ∃ x ∈ room.members, x ≠ c)
    (hopen : ∀ x ∈ room.members, (h.send x).closed = false)
    (hfree : ∀ x ∈ room.members, x ≠ c → (h.send x).full cap = false) :
    ∃ h', step cap h (.unregister c) = some h' ∧
      h'.quizRooms c.quizID = some (room.erase c) ∧
      c ∉ (room.erase c).members ∧
      (∀ x ∈ room.members, x ≠ c → x ∈ (room.erase c).members ∧
        h'.send x = { h.send x with buf := (h.send x).buf ++ [frameOf (leaveMessage c)] }) ∧
      h'.send c = { h.send c with closed := true } ∧
      ((frameOf (leaveMessage c)).type = "leave" ∧
        (frameOf (leaveMessage c)).quiz_id = c.quizID ∧
        (frameOf (leaveMessage c)).content.field "user_id" = some c.userID) := by
  obtain ⟨y, hy, hyc⟩ := hother
  have hlen : (room.erase c).len ≠ 0 := by
    have : y ∈ (room.erase c).members := (Room.mem_erase_of_ne room hyc).mpr hy
    exact Nat.ne_of_gt (List.length_pos_of_mem this)
  have hopen' : ∀ x ∈ (room.erase c).members,
      ((Function.update h.send c { h.send c with closed := true }) x).closed = false := by
    intro x hx
    have hxc : x ≠ c := fun e => Room.not_mem_erase room c (e ▸ hx)
    rw [Function.update_noteq hxc]
    exact hopen x ((Room.mem_erase_of_ne room hxc).mp hx)
  refine ⟨fanOut cap c.quizID (frameOf (leaveMessage c)) (room.erase c).members
      { quizRooms := Function.update h.quizRooms c.quizID (some (room.erase c)),
        send := Function.update h.send c { h.send c with closed := true } },
    ?_, ?_, Room.not_mem_erase room c, ?_, ?_, ⟨rfl, rfl, field_user_id _ _⟩⟩
  · show unregister cap h c = _
    rw [unregister_others cap h c room hq hc (hopen c hc) hlen,
      broadcastToRoom_some cap _ _ _ (room.erase c) (Function.update_same _ _ _),
      if_pos hopen']
  · rw [fanOut_room cap _ _ _ (room.erase c) (Function.update_same _ _ _), Room.filter_true]
    intro x hx
    have hxc : x ≠ c := fun e => Room.not_mem_erase room c (e ▸ hx)
    show (!((Function.update h.send c { h.send c with closed := true }) x).full cap) = true
    rw [Function.update_noteq hxc, hfree x ((Room.mem_erase_of_ne room hxc).mp hx) hxc]
    rfl
  · intro x hx hxc
    have hx' : x ∈ (room.erase c).members := (Room.mem_erase_of_ne room hxc).mpr hx
    refine ⟨hx', ?_⟩
    rw [fanOut_send_mem cap _ _ _ _ x hx']
    show ((Function.update h.send c { h.send c with closed := true }) x).afterSend cap _ = _
    rw [Function.update_noteq hxc, afterSend_of_not_full cap _ _ (hfree x hx hxc)]
  · rw [fanOut_send_not_mem cap _ _ _ _ c (Room.not_mem_erase room c)]
    exact Function.update_same _ _ _

/-- Witness for C8: alice leaves room `Q1` of alice and bob, capacity 2. -/
theorem unregister_notifies_remaining_witness :
    ∃ h', step 2 twoInRoom (.unregister alice) = some h' ∧
      h'.members "Q1" = [bob] ∧ h'.send alice = ⟨[], true⟩ ∧
      h'.send bob = ⟨[frameOf (leaveMessage alice)], false⟩ := by
  obtain ⟨h', hstep, hroom, _, hrest, hsend, _⟩ :=
    unregister_notifies_remaining 2 twoInRoom alice ⟨[alice, bob], by decide⟩ rfl
      (by decide) ⟨bob, by decide, by decide⟩ (by decide) (by decide)
  have hroom' : h'.quizRooms "Q1" = some (Room.erase ⟨[alice, bob], by decide⟩ alice) := hroom
  refine ⟨h', hstep, ?_, ?_, ?_⟩
  · simp only [Hub.members, hroom']; decide
  · rw [hsend]; rfl
  · rw [(hrest bob (by decide) (by decide)).2]; rfl

/-- C9 (does not hold as stated): registering a new handle does not always
make the room one member larger.  With capacity 1, after alice registers her
mailbox holds her own join notice and is full; bob, not yet a member, then
registers, the join notice for bob drops alice, and the room has one member
after the call as it had before. -/
theorem register_can_leave_count_unchanged :
    (run 1 NewHub [.register alice]).map
        (fun s => (s.isMember "Q1" bob, s.memberCount "Q1")) = some (false, 1) ∧
    (run 1 NewHub [.register alice, .register bob]).map
        (fun s => (s.isMember "Q1" bob, s.isMember "Q1" alice, s.memberCount "Q1"))
      = some (true, false, 1) := by
  constructor <;> decide

/-- C9 as amended: for a handle `c` that is not a member of the room of its
session, the mailboxes of that room and of `c` being open, `Register(c)`
succeeds and afterwards the room exists in the registry; its members are the
former members followed by `c`, without those whose mailbox was full.  So when
none of these mailboxes is full, `c` is a member and the member count is
exactly one more than before. -/
theorem register_adds_member (cap : Nat) (h : Hub) (c : Client)
    (hnew : h.isMember c.quizID c = false)
    (hopen : ∀ x ∈ h.members c.quizID ++ [c], (h.send x).closed = false) :
    ∃ h' room', step cap h (.register c) = some h' ∧
      h'.quizRooms c.quizID = some room' ∧ h'.hasRoom c.quizID = true ∧
      room'.members = (h.members c.quizID ++ [c]).filter (fun x => !(h.send x).full cap) ∧
      ((∀ x ∈ h.members c.quizID ++ [c], (h.send x).full cap = false) →
        c ∈ room'.members ∧ h'.memberCount c.quizID = h.memberCount c.quizID + 1) := by
  have hnot : c ∉ ((h.quizRooms c.quizID).getD Room.empty).members := by
    rw [Hub.members_getD]; exact Hub.not_mem_of_isMember_false h _ c hnew
  have hmem : (((h.quizRooms c.quizID).getD Room.empty).insert c).members
      = h.members c.quizID ++ [c] := by
    rw [Room.members_insert_of_not_mem _ c hnot, Hub.members_getD]
  have hroom := fanOut_room cap c.quizID (frameOf (joinMessage c))
    { quizRooms := Function.update h.quizRooms c.quizID
                     (some (((h.quizRooms c.quizID).getD Room.empty).insert c)),
      send := h.send }
    (((h.quizRooms c.quizID).getD Room.empty).insert c) (Function.update_same _ _ _)
  refine ⟨_, _, register_some cap h c hopen, hroom, ?_, ?_, ?_⟩
  · simp [Hub.hasRoom, hroom]
  · show List.filter _ (((h.quizRooms c.quizID).getD Room.empty).insert c).members = _
    rw [hmem]
  · intro hfree
    have hall : (h.members c.quizID ++ [c]).filter (fun x => !(h.send x).full cap)
        = h.members c.quizID ++ [c] := by
      apply List.filter_eq_self.mpr
      intro x hx
      simp [hfree x hx]
    constructor
    · show c ∈ List.filter _ (((h.quizRooms c.quizID).getD Room.empty).insert c).members
      rw [hmem, hall]
      simp
    · rw [Hub.memberCount_eq, Hub.memberCount_eq]
      show (Hub.members _ c.quizID).length = _
      unfold Hub.members
      rw [hroom]
      show (List.filter _ (((h.quizRooms c.quizID).getD Room.empty).insert c).members).length = _
      rw [hmem, hall]
      simp [Hub.members]

/-- Witness for C9 as amended: carol joins room `Q1` of alice and bob, with
capacity 2 and empty mailboxes. -/
theorem register_adds_member_witness :
    ∃ h', step 2 twoInRoom (.register carol) = some h' ∧
      h'.members "Q1" = [alice, bob, carol] ∧ h'.memberCount "Q1" = 2 + 1 := by
  obtain ⟨h', room', hstep, hroom, _, hmem, hcount⟩ :=
    register_adds_member 2 twoInRoom carol (by decide) (by decide)
  have hroom' : h'.quizRooms "Q1" = some room' := hroom
  refine ⟨h', hstep, ?_, (hcount (by decide)).2⟩
  simp only [Hub.members, hroom', hmem]
  decide

/-- C10: when the mailboxes of the members of the room of `c` and the mailbox
of `c` itself are open and not full, `Register(c)` succeeds and appends exactly
one frame to the mailbox of every member of the room and to the mailbox of `c`:
the join notice, of type join, with the session identifier of the room as
quiz_id and a content whose user_id is `c.userID`. -/
theorem register_notifies_room (cap : Nat) (h : Hub) (c : Client)
    (hopen : ∀ x ∈ h.members c.quizID ++ [c], (h.send x).closed = false)
    (hfree : ∀ x ∈ h.members c.quizID ++ [c], (h.send x).full cap = false) :
    ∃ h', step cap h (.register c) = some h' ∧
      (∀ x ∈ h.members c.quizID ++ [c],
        h'.send x = { h.send x with buf := (h.send x).buf ++ [frameOf (joinMessage c)] }) ∧
      ((frameOf (joinMessage c)).type = "join" ∧
        (frameOf (joinMessage c)).quiz_id = c.quizID ∧
        (frameOf (joinMessage c)).content.field "user_id" = some c.userID) := by
  refine ⟨_, register_some cap h c hopen, ?_, ⟨rfl, rfl, field_user_id _ _⟩⟩
  intro x hx
  have hin : x ∈ (((h.quizRooms c.quizID).getD Room.empty).insert c).members := by
    rw [Room.mem_insert, Hub.members_getD, ← List.mem_singleton, ← List.mem_append]; exact hx
  rw [fanOut_send_mem cap _ _ _ _ x hin]
  exact afterSend_of_not_full cap _ _ (hfree x hx)

/-- Witness for C10: carol joins room `Q1` of alice and bob, with capacity 2
and empty mailboxes; all three mailboxes get the join notice naming carol. -/
theorem register_notifies_room_witness :
    ∃ h', step 2 twoInRoom (.register carol) = some h' ∧
      (h'.send alice).buf = [frameOf (joinMessage carol)] ∧
      (h'.send bob).buf = [frameOf (joinMessage carol)] ∧
      (h'.send carol).buf = [frameOf (joinMessage carol)] ∧
      (frameOf (joinMessage carol)).content.field "user_id" = some "carol" := by
  obtain ⟨h', hstep, hsend, _, _, hfield⟩ :=
    register_notifies_room 2 twoInRoom carol (by decide) (by decide)
  refine ⟨h', hstep, ?_, ?_, ?_, hfield⟩
  · rw [hsend alice (by decide)]; rfl
  · rw [hsend bob (by decide)]; rfl
  · rw [hsend carol (by decide)]; rfl

/-- C11: an inbound envelope whose kind is none of answer, question, result
is dropped: handling it succeeds and returns the hub state unchanged, so the
registry, every room and every mailbox are as before and nothing is
enqueued. -/
theorem unrecognized_kind_is_dropped (cap : Nat) (h : Hub) (m : Message)
    (h1 : m.Type_ ≠ "answer") (h2 : m.Type_ ≠ "question") (h3 : m.Type_ ≠ "result") :
    step cap h (.broadcast m) = some h := by
  show handleMessage cap h m = some h
  simp [handleMessage, h1, h2, h3]

/-- Witness for C11: an inbound envelope of kind join sent to room `Q1` of
alice and bob leaves the hub as it was. -/
theorem unrecognized_kind_is_dropped_witness :
    step 2 twoInRoom (.broadcast inboundJoin) = some twoInRoom :=
  unrecognized_kind_is_dropped 2 twoInRoom inboundJoin (by decide) (by decide) (by decide)

/-- C12: in every state the loop reaches from `NewHub`, a handle that is a
member of the room keyed `q` has `q` as its own session identifier, and every
room it is a member of is that same room: no handle is in two rooms. -/
theorem member_of_own_room_only (cap : Nat) (h : Hub) (hr : Reachable cap h)
    (c : Client) (q : String) (hc : h.isMember q c = true) :
    q = c.quizID ∧ ∀ q', h.isMember q' c = true → q' = q := by
  have hhome := (reachable_members_open cap h hr).2
  have hq : c.quizID = q := hhome.quizID_eq ((Hub.isMember_iff h q c).mp hc)
  refine ⟨hq.symm, ?_⟩
  intro q' hc'
  rw [← hq]
  exact (hhome.quizID_eq ((Hub.isMember_iff h q' c).mp hc')).symm

/-- Witness for C12: after alice, bob and dave register, alice is in room
`Q1`, her own session, and in no other room. -/
theorem member_of_own_room_only_witness :
    ∃ h, run 2 NewHub [.register alice, .register bob, .register dave] = some h ∧
      h.isMember "Q1" alice = true ∧
      ("Q1" = alice.quizID ∧ ∀ q', h.isMember q' alice = true → q' = "Q1") := by
  have hev : (run 2 NewHub [.register alice, .register bob, .register dave]).map
      (fun s => s.isMember "Q1" alice) = some true := by decide
  cases hrun : run 2 NewHub [.register alice, .register bob, .register dave] with
  | none => rw [hrun] at hev; cases hev
  | some h =>
    rw [hrun] at hev
    have hmem : h.isMember "Q1" alice = true := Option.some.inj hev
    exact ⟨h, rfl, hmem, member_of_own_room_only 2 h ⟨_, hrun⟩ alice "Q1" hmem⟩

/-- C13: from a hub with no room, for every sequence of events in which no
handle is passed to `Register` twice and every handle passed to `Register` has
an open mailbox, every prefix of the sequence is handled to completion (no
send on a closed mailbox, no second close: the result is never `none`) and in
the state it reaches every member of every room has an open mailbox.
`Unregister` and inbound messages may occur any number of times. -/
theorem hub_has_no_fatal_path (cap : Nat) (h0 : Hub) (es : List Event)
    (hempty : ∀ q, h0.quizRooms q = none)
    (honce : (registrations es).Nodup)
    (hopen : ∀ c ∈ registrations es, (h0.send c).closed = false) :
    ∀ n, ∃ s, run cap h0 (es.take n) = some s ∧ MembersOpen s := by
  apply run_total cap es h0
  · intro q room hq
    rw [hempty q] at hq
    cases hq
  · intro q room hq
    rw [hempty q] at hq
    cases hq
  · exact honce
  · intro c hc
    refine ⟨hopen c hc, ?_⟩
    intro q hq
    rw [Hub.members_of_none h0 q (hempty q)] at hq
    cases hq

/-- Witness for C13: with capacity 1, alice registers, is unregistered twice,
bob registers, a question fills his mailbox and a second one drops him, and he
is then unregistered: the loop handles all seven events. -/
theorem hub_has_no_fatal_path_witness :
    ∃ s, run 1 NewHub [.register alice, .unregister alice, .unregister alice,
        .register bob, .broadcast question, .broadcast question, .unregister bob] = some s ∧
      MembersOpen s :=
  hub_has_no_fatal_path 1 NewHub
    [.register alice, .unregister alice, .unregister alice,
      .register bob, .broadcast question, .broadcast question, .unregister bob]
    (fun _ => rfl) (by decide) (by decide) 7

/-- C15: let `a` and `b` be members of room `q` in the state `h` the sequence
starts in and in the state reached after every prefix of the events `es` (the
whole sequence included), every member of a room of `h` carrying that room's
session identifier, as in every reachable state.  Then the frames the hub has
enqueued to the mailbox of `a` during the sequence are, item for item and in
the same order, the frames it has enqueued to the mailbox of `b`. -/
theorem members_receive_same_frames (cap : Nat) (q : String) (a b : Client)
    (es : List Event) (h h' : Hub) (hhome : MembersHome h)
    (hrun : run cap h es = some h')
    (hstay : ∀ n s, run cap h (es.take n) = some s → a ∈ s.members q ∧ b ∈ s.members q) :
    ∃ fs : List Frame, (h'.send a).buf = (h.send a).buf ++ fs ∧
      (h'.send b).buf = (h.send b).buf ++ fs := by
  induction es generalizing h with
  | nil =>
    rw [run_nil] at hrun
    cases hrun
    exact ⟨[], by simp, by simp⟩
  | cons e es ih =>
    cases hs : step cap h e with
    | none => rw [run_cons, hs] at hrun; cases hrun
    | some s =>
      rw [run_cons_some cap h s e es hs] at hrun
      obtain ⟨ha, hb⟩ := hstay 0 h rfl
      obtain ⟨ha', hb'⟩ := hstay 1 s (by
        rw [List.take_succ_cons, List.take_zero, run_cons_some cap h s e [] hs, run_nil])
      obtain ⟨fs₁, h1a, h1b⟩ := step_same_frames cap h s e q a b hs hhome ha hb ha' hb'
      have hstay' : ∀ n t, run cap s (es.take n) = some t →
          a ∈ t.members q ∧ b ∈ t.members q := by
        intro n t ht
        apply hstay (n + 1) t
        rw [List.take_succ_cons, run_cons_some cap h s e _ hs]
        exact ht
      obtain ⟨fs₂, h2a, h2b⟩ := ih s (step_preserves_home cap h s e hs hhome) hrun hstay'
      exact ⟨fs₁ ++ fs₂, by rw [h2a, h1a, List.append_assoc],
        by rw [h2b, h1b, List.append_assoc]⟩

/-- Home rooms of the state `twoInRoom`. -/
theorem twoInRoom_home : MembersHome twoInRoom := by
  intro q room hq c hc
  by_cases hq1 : q = "Q1"
  · subst hq1
    have hroom : room.members = [alice, bob] := by
      have : (some ⟨[alice, bob], by decide⟩ : Option Room) = some room := hq
      cases this
      rfl
    rw [hroom] at hc
    rcases List.mem_cons.mp hc with rfl | hc
    · rfl
    · rw [List.mem_singleton.mp hc]; rfl
  · have : (none : Option Room) = some room := by
      rw [← hq]
      show none = (if q = "Q1" then _ else none)
      rw [if_neg hq1]
    cases this

/-- Witness for C15: in room `Q1` of alice and bob, a question is dispatched,
carol registers and is unregistered; alice and bob stay throughout and their
mailboxes receive the same three frames. -/
theorem members_receive_same_frames_witness :
    ∃ h' fs, run 3 twoInRoom [.broadcast question, .register carol, .unregister carol] = some h' ∧
      fs.length = 3 ∧
      (h'.send alice).buf = (twoInRoom.send alice).buf ++ fs ∧
      (h'.send bob).buf = (twoInRoom.send bob).buf ++ fs := by
  have hev : ∀ n, (run 3 twoInRoom
      (([.broadcast question, .register carol, .unregister carol] : List Event).take n)).map
      (fun s => (decide (alice ∈ s.members "Q1") && decide (bob ∈ s.members "Q1"),
        (s.send alice).buf.length)) = some (true, min n 3) := by
    intro n
    rcases n with _ | _ | _ | _ | n
    · decide
    · decide
    · decide
    · decide
    · have : (([.broadcast question, .register carol, .unregister carol] : List Event).take
          (n + 1 + 1 + 1 + 1)) = [.broadcast question, .register carol, .unregister carol] := by
        simp
      rw [this]
      have hmin : min (n + 1 + 1 + 1 + 1) 3 = 3 := by omega
      rw [hmin]
      decide
  cases hrun : run 3 twoInRoom [.broadcast question, .register carol, .unregister carol] with
  | none =>
    have := hev 3
    rw [List.take_of_length_le (by simp), hrun] at this
    cases this
  | some h' =>
    obtain ⟨fs, ha, hb⟩ := members_receive_same_frames 3 "Q1" alice bob
      [.broadcast question, .register carol, .unregister carol] twoInRoom h'
      twoInRoom_home hrun (by
        intro n s hs
        have := hev n
        rw [hs] at this
        simp only [Option.map_some', Option.some.injEq, Prod.mk.injEq, Bool.and_eq_true,
          decide_eq_true_eq] at this
        exact this.1)
    refine ⟨h', fs, rfl, ?_, ha, hb⟩
    have hl := hev 3
    rw [List.take_of_length_le (by simp), hrun] at hl
    simp only [Option.map_some', Option.some.injEq, Prod.mk.injEq] at hl
    have hlen := congrArg List.length ha
    rw [List.length_append, hl.2] at hlen
    have h0 : (twoInRoom.send alice).buf.length = 0 := rfl
    omega

/-- C16: an event about session `q` (a register or unregister request of a
handle of session `q`, or an inbound message with quiz_id `q`), handled in a
state where the mailboxes it sends to or closes are open, succeeds and leaves
every registry entry other than that of `q` exactly as it was, and leaves
unchanged the mailbox (contents and closed flag) of every client that is
neither a member of room `q` nor the handle of the event.  An inbound message
for a session that has no room returns the state unchanged, whatever its
kind, so it creates no room. -/
theorem rooms_are_isolated (cap : Nat) (h : Hub) (e : Event)
    (hopen : ∀ x ∈ h.members e.session, (h.send x).closed = false)
    (hreg : ∀ c, e = .register c → (h.send c).closed = false) :
    (∃ s, step cap h e = some s ∧
      (∀ q', q' ≠ e.session → s.quizRooms q' = h.quizRooms q' ∧ s.members q' = h.members q') ∧
      (∀ x, x ∉ h.members e.session → e.handle ≠ some x → s.send x = h.send x)) ∧
    (∀ m, h.quizRooms m.QuizID = none → step cap h (.broadcast m) = some h) := by
  constructor
  · obtain ⟨s, hs⟩ := step_total cap h e hopen hreg
    obtain ⟨hrooms, hsend, _, _⟩ := step_effect cap h s e hs
    exact ⟨s, hs, fun q' hq' => ⟨hrooms q' hq', Hub.members_congr (hrooms q' hq')⟩, hsend⟩
  · intro m hm
    show handleMessage cap h m = some h
    unfold handleMessage
    split
    · exact broadcastToRoom_none cap h _ m hm
    · split
      · exact broadcastToRoom_none cap h _ m hm
      · split
        · exact broadcastToRoom_none cap h _ m hm
        · rfl

/-- Witness for C16: dave, of session `Q2`, registers while alice and bob are
in room `Q1`: room `Q1` and the mailboxes of alice and bob are untouched. -/
theorem rooms_are_isolated_witness :
    ∃ s, step 2 twoInRoom (.register dave) = some s ∧
      s.members "Q1" = [alice, bob] ∧ s.send alice = Chan.fresh ∧ s.send bob = Chan.fresh := by
  obtain ⟨⟨s, hs, hrooms, hsend⟩, _⟩ :=
    rooms_are_isolated 2 twoInRoom (.register dave) (by decide) (fun _ _ => rfl)
  refine ⟨s, hs, ?_, ?_, ?_⟩
  · rw [(hrooms "Q1" (by decide)).2]; rfl
  · rw [hsend alice (by decide) (by decide)]; rfl
  · rw [hsend bob (by decide) (by decide)]; rfl

/-! ## The authentication middleware -/

/-- When `authMiddleware` ends with `c.Next()`. -/
theorem authMiddleware_next_iff (jwtParse : String → Except String Token)
    (tokenString uid : String) :
    authMiddleware jwtParse tokenString = .next uid ↔
      tokenString ≠ "" ∧ ∃ token claims, jwtParse tokenString = .ok token ∧
        token.Valid = true ∧ token.Claims = .mapClaims claims ∧
        claims.lookup "user_id" = some (.str uid) := by
  unfold authMiddleware
  by_cases ht : tokenString = ""
  · simp [ht]
  · simp only [if_neg ht, ne_eq, ht, not_false_eq_true, true_and]
    cases hp : jwtParse tokenString with
    | error err => simp
    | ok token =>
      obtain ⟨valid, cl⟩ := token
      cases valid with
      | false => simp
      | true =>
        cases cl with
        | other => simp
        | mapClaims claims =>
          cases hl : claims.lookup "user_id" with
          | none => simp [hl]
          | some v =>
            cases v with
            | other => simp [hl]
            | str u => simp [hl]

theorem authMiddleware_abort_401 (jwtParse : String → Except String Token)
    (tokenString : String) (status : Nat) (error : String)
    (h : authMiddleware jwtParse tokenString = .abort status error) : status = 401 := by
  unfold authMiddleware at h
  split at h
  · cases h; rfl
  · split at h
    · cases h; rfl
    · split at h
      · cases h; rfl
      · split at h
        · cases h; rfl
        · split at h
          · cases h
          · cases h; rfl

/-- C14: the route `/ws/:quizId` calls `ServeWs` for identity `uid` exactly
when the token parameter is not empty, `jwt.Parse` returns no error and a
valid token, and the token's claims are a map whose `user_id` is the string
`uid`; `authMiddleware` then ends with `c.Set("user_id", uid)` and `c.Next()`.
In every other case it answers 401 and aborts, and `ServeWs` is not
called. -/
theorem auth_gate_admits_iff (jwtParse : String → Except String Token) (tokenString : String) :
    (∀ uid, wsRoute jwtParse tokenString = .servedWs uid ↔
      tokenString ≠ "" ∧ ∃ token claims, jwtParse tokenString = .ok token ∧
        token.Valid = true ∧ token.Claims = .mapClaims claims ∧
        claims.lookup "user_id" = some (.str uid)) ∧
    (∀ uid, wsRoute jwtParse tokenString = .servedWs uid ↔
      authMiddleware jwtParse tokenString = .next uid) ∧
    ((∀ uid, wsRoute jwtParse tokenString ≠ .servedWs uid) →
      ∃ error, authMiddleware jwtParse tokenString = .abort 401 error ∧
        wsRoute jwtParse tokenString = .answered 401 error) := by
  have hroute : ∀ uid, wsRoute jwtParse tokenString = .servedWs uid ↔
      authMiddleware jwtParse tokenString = .next uid := by
    intro uid
    unfold wsRoute
    cases authMiddleware jwtParse tokenString with
    | abort status error => simp
    | next u => simp
  refine ⟨fun uid => (hroute uid).trans (authMiddleware_next_iff jwtParse tokenString uid),
    hroute, ?_⟩
  intro hno
  cases hg : authMiddleware jwtParse tokenString with
  | abort status error =>
    have h401 := authMiddleware_abort_401 jwtParse tokenString status error hg
    subst h401
    exact ⟨error, rfl, by simp [wsRoute, hg]⟩
  | next u => exact absurd ((hroute u).mpr hg) (hno u)

/-- Witness for C14: with a parser that accepts the token `good` for alice,
that token is admitted as alice, and an empty and a malformed token are
answered 401. -/
theorem auth_gate_admits_iff_witness :
    wsRoute sampleParse "good" = .servedWs "alice" ∧
    wsRoute sampleParse "" = .answered 401 "Token is required" ∧
    wsRoute sampleParse "bad" = .answered 401 "Invalid token" :=
  ⟨((auth_gate_admits_iff sampleParse "good").1 "alice").mpr
      ⟨by decide, _, _, rfl, rfl, rfl, rfl⟩,
    by decide, by decide⟩

/-! ## The quiz service -/

theorem set_length_append {α : Type} (pre : List α) (r c : α) (rest : List α) :
    (pre ++ r :: rest).set pre.length c = pre ++ c :: rest := by
  induction pre with
  | nil => rfl
  | cons a pre ih => simp [List.set, ih]

/-- The loop of `GetQuiz` overwrites the slots from position `pre.length` on
with the converted questions. -/
theorem fillQuestions_append (qs : List Question) :
    ∀ (pre rest : List QuestionResponse), rest.length = qs.length →
      fillQuestions qs pre.length (pre ++ rest)
        = pre ++ qs.map (fun q => (⟨q.Word, q.Options⟩ : QuestionResponse)) := by
  induction qs with
  | nil =>
    intro pre rest hlen
    have : rest = [] := List.length_eq_zero.mp hlen
    subst this
    rfl
  | cons q qs ih =>
    intro pre rest hlen
    cases rest with
    | nil => cases hlen
    | cons r rest =>
      have hlen' : rest.length = qs.length := by simpa using hlen
      show fillQuestions qs (pre.length + 1) ((pre ++ r :: rest).set pre.length _) = _
      rw [set_length_append]
      have h := ih (pre ++ [⟨q.Word, q.Options⟩]) rest hlen'
      simp only [List.length_append, List.length_singleton, List.append_assoc,
        List.singleton_append] at h
      rw [h]
      rfl

theorem quizResponse_questions (quiz : Quiz) :
    (quizResponse quiz).Questions
      = quiz.Questions.map (fun q => (⟨q.Word, q.Options⟩ : QuestionResponse)) := by
  have h := fillQuestions_append quiz.Questions []
    (List.replicate quiz.Questions.length ⟨"", []⟩) (by simp)
  simpa [quizResponse] using h

/-- C17: the response `GetQuiz` builds from a stored quiz has the quiz's id,
title and description and as many questions as the quiz; its i-th question has
the word of the quiz's i-th question as text and its options as options; a
quiz with the same id, title, description, words and options, whatever its
correct answers, yields the same response; and for a quiz that is found the
handler replies 200 with that response. -/
theorem get_quiz_hides_correct_answers (quiz : Quiz) :
    (quizResponse quiz).ID = quiz.ID ∧
    (quizResponse quiz).Title = quiz.Title ∧
    (quizResponse quiz).Description = quiz.Description ∧
    (quizResponse quiz).Questions.length = quiz.Questions.length ∧
    (∀ i : Nat, (quizResponse quiz).Questions[i]?
      = (quiz.Questions[i]?).map (fun q : Question => (⟨q.Word, q.Options⟩ : QuestionResponse))) ∧
    (∀ quiz' : Quiz, quiz'.ID = quiz.ID → quiz'.Title = quiz.Title →
      quiz'.Description = quiz.Description →
      quiz'.Questions.map (fun q => (q.Word, q.Options))
        = quiz.Questions.map (fun q => (q.Word, q.Options)) →
      quizResponse quiz' = quizResponse quiz) ∧
    (∀ oid, GetQuiz (some oid) (.found quiz) = ⟨200, .quiz (quizResponse quiz)⟩) := by
  refine ⟨rfl, rfl, rfl, ?_, ?_, ?_, fun _ => rfl⟩
  · rw [quizResponse_questions, List.length_map]
  · intro i
    rw [quizResponse_questions, List.getElem?_map]
  · intro quiz' hid htitle hdesc hqs
    have hq : (quizResponse quiz').Questions = (quizResponse quiz).Questions := by
      rw [quizResponse_questions, quizResponse_questions]
      have := congrArg (List.map (fun p : String × List String =>
        (⟨p.1, p.2⟩ : QuestionResponse))) hqs
      simpa [List.map_map, Function.comp_def] using this
    have hfields : quizResponse quiz' =
        { ID := quiz'.ID, Title := quiz'.Title, Description := quiz'.Description,
          TimePerQuestion := 0, TotalQuestions := 0, StartTime := none, EndTime := none,
          Questions := (quizResponse quiz').Questions } := rfl
    have hfields' : quizResponse quiz =
        { ID := quiz.ID, Title := quiz.Title, Description := quiz.Description,
          TimePerQuestion := 0, TotalQuestions := 0, StartTime := none, EndTime := none,
          Questions := (quizResponse quiz).Questions } := rfl
    rw [hfields, hfields', hid, htitle, hdesc, hq]

/-- Witness for C17: two quizzes that differ only in the correct answers they
record get the same reply, which carries no correct answer. -/
theorem get_quiz_hides_correct_answers_witness :
    quizResponse sampleQuizOtherAnswers = quizResponse sampleQuiz ∧
    (quizResponse sampleQuiz).Questions = [⟨"2+2?", ["3", "4"]⟩, ⟨"3+3?", ["6", "7"]⟩] :=
  ⟨(get_quiz_hides_correct_answers sampleQuiz).2.2.2.2.2.1 sampleQuizOtherAnswers
      rfl rfl rfl (by decide),
    by decide⟩

theorem index_some {α : Type} (l : List α) (i : Int) (h0 : 0 ≤ i) (h1 : i < l.length) :
    ∃ x, index l i = some x := by
  have hlt : i.toNat < l.length := by omega
  refine ⟨l[i.toNat], ?_⟩
  unfold index
  rw [if_neg (by omega), List.getElem?_eq_getElem hlt]

theorem Atoi_none_iff (s : String) :
    Atoi s = none ↔
      ¬ ∃ v, parseDecimal s = some v ∧ -(2 : Int) ^ 63 ≤ v ∧ v < (2 : Int) ^ 63 := by
  unfold Atoi
  cases hp : parseDecimal s with
  | none => simp
  | some v =>
    by_cases hr : -(2 : Int) ^ 63 ≤ v ∧ v < (2 : Int) ^ 63
    · simp [hr]
    · simp only [if_neg hr, true_iff]
      rintro ⟨w, hw, hw'⟩
      cases hw
      exact hr hw'

/-- C18 (does not hold as stated): a decimal integer that does not fit Go's
`int` is rejected as an invalid index, for `strconv.Atoi` fails on it too, and
a valid index is not always answered with `correct`: when saving the answer
fails the reply is a 500. -/
theorem submit_answer_rejects_large_decimal :
    parseDecimal "9223372036854775808" = some 9223372036854775808 ∧
    SubmitAnswer (.ok "4") (some sampleQuiz.ID) (.found sampleQuiz) "9223372036854775808"
        (some "alice") true = some ⟨400, .error "Invalid question index"⟩ ∧
    SubmitAnswer (.ok "4") (some sampleQuiz.ID) (.found sampleQuiz) "0"
        (some "alice") false = some ⟨500, .error "Error saving answer"⟩ := by
  refine ⟨?_, ?_, ?_⟩ <;> decide

/-- C18 as amended: for a quiz that is found, `SubmitAnswer` replies 400
"Invalid question index" exactly when `strconv.Atoi` fails on the path
parameter, that is when the parameter is not a decimal integer (optional sign,
then digits) that fits a 64-bit `int`; it replies 400 "Question index out of
range" exactly when the parsed index `i` has `i < 0` or `i >= len(questions)`;
and otherwise the index expression is inside the question list and the reply
is 401 when the context holds no user id, 500 when the answer could not be
saved, and else 200 with `correct` true exactly when the correct answer of
question `i` equals the submitted answer.  The handler never panics. -/
theorem submit_answer_decision (answer : String) (oid : ObjectID) (quiz : Quiz)
    (questionIndex : String) (userID : Option String) (saved : Bool) :
    (SubmitAnswer (.ok answer) (some oid) (.found quiz) questionIndex userID saved
        = some ⟨400, .error "Invalid question index"⟩ ↔ Atoi questionIndex = none) ∧
    (Atoi questionIndex = none ↔
      ¬ ∃ v, parseDecimal questionIndex = some v ∧ -(2 : Int) ^ 63 ≤ v ∧ v < (2 : Int) ^ 63) ∧
    (SubmitAnswer (.ok answer) (some oid) (.found quiz) questionIndex userID saved
        = some ⟨400, .error "Question index out of range"⟩ ↔
      ∃ i, Atoi questionIndex = some i ∧ (i < 0 ∨ i ≥ quiz.Questions.length)) ∧
    (∀ i, Atoi questionIndex = some i → 0 ≤ i → i < quiz.Questions.length →
      ∃ q, index quiz.Questions i = some q ∧
        SubmitAnswer (.ok answer) (some oid) (.found quiz) questionIndex userID saved =
          match userID with
          | none => some ⟨401, .error "User ID not found in token"⟩
          | some _ =>
            if saved then some ⟨200, .correct (decide (q.CorrectAnswer = answer))⟩
            else some ⟨500, .error "Error saving answer"⟩) ∧
    SubmitAnswer (.ok answer) (some oid) (.found quiz) questionIndex userID saved ≠ none := by
  have hvalid : ∀ i, Atoi questionIndex = some i → 0 ≤ i → i < quiz.Questions.length →
      ∃ q, index quiz.Questions i = some q ∧
        SubmitAnswer (.ok answer) (some oid) (.found quiz) questionIndex userID saved =
          match userID with
          | none => some ⟨401, .error "User ID not found in token"⟩
          | some _ =>
            if saved then some ⟨200, .correct (decide (q.CorrectAnswer = answer))⟩
            else some ⟨500, .error "Error saving answer"⟩ := by
    intro i hi h0 h1
    obtain ⟨q, hq⟩ := index_some quiz.Questions i h0 h1
    refine ⟨q, hq, ?_⟩
    have hr : ¬ (i < 0 ∨ i ≥ quiz.Questions.length) := by omega
    simp only [SubmitAnswer, hi, if_neg hr, hq]
  refine ⟨?_, Atoi_none_iff questionIndex, ?_, hvalid, ?_⟩
  · cases hA : Atoi questionIndex with
    | none => simp [SubmitAnswer, hA]
    | some i =>
      simp only [reduceCtorEq, iff_false]
      by_cases hr : i < 0 ∨ i ≥ quiz.Questions.length
      · simp [SubmitAnswer, hA, hr]
      · obtain ⟨q, _, hs⟩ := hvalid i hA (by omega) (by omega)
        rw [hs]
        cases userID with
        | none => simp
        | some u => cases saved <;> simp
  · cases hA : Atoi questionIndex with
    | none => simp [SubmitAnswer, hA]
    | some i =>
      by_cases hr : i < 0 ∨ i ≥ quiz.Questions.length
      · simp [SubmitAnswer, hA, hr]
      · obtain ⟨q, _, hs⟩ := hvalid i hA (by omega) (by omega)
        rw [hs]
        have hno : ¬ ∃ j, some i = some j ∧ (j < 0 ∨ j ≥ quiz.Questions.length) := by
          rintro ⟨j, hj, hj'⟩
          cases hj
          exact hr hj'
        simp only [hno, iff_false]
        cases userID with
        | none => simp
        | some u => cases saved <;> simp
  · cases hA : Atoi questionIndex with
    | none => simp [SubmitAnswer, hA]
    | some i =>
      by_cases hr : i < 0 ∨ i ≥ quiz.Questions.length
      · simp [SubmitAnswer, hA, hr]
      · obtain ⟨q, _, hs⟩ := hvalid i hA (by omega) (by omega)
        rw [hs]
        cases userID with
        | none => simp
        | some u => cases saved <;> simp

/-- Witness for C18 as amended: on the sample quiz, index `1` with the right
answer is answered `correct: true`, index `2` is out of range, and `one` is
not an index. -/
theorem submit_answer_decision_witness :
    SubmitAnswer (.ok "6") (some sampleQuiz.ID) (.found sampleQuiz) "1" (some "alice") true
      = some ⟨200, .correct true⟩ ∧
    SubmitAnswer (.ok "6") (some sampleQuiz.ID) (.found sampleQuiz) "2" (some "alice") true
      = some ⟨400, .error "Question index out of range"⟩ ∧
    SubmitAnswer (.ok "6") (some sampleQuiz.ID) (.found sampleQuiz) "one" (some "alice") true
      = some ⟨400, .error "Invalid question index"⟩ := by
  refine ⟨?_, ?_, ?_⟩
  · obtain ⟨q, hq, hs⟩ := (submit_answer_decision "6" sampleQuiz.ID sampleQuiz "1"
      (some "alice") true).2.2.2.1 1 (by decide) (by decide) (by decide)
    have hq' : q = ⟨"3+3?", ["6", "7"], "6"⟩ := by
      have : index sampleQuiz.Questions 1 = some ⟨"3+3?", ["6", "7"], "6"⟩ := by decide
      rw [this] at hq
      exact (Option.some.inj hq).symm
    rw [hs, hq']
    decide
  · exact (submit_answer_decision "6" sampleQuiz.ID sampleQuiz "2"
      (some "alice") true).2.2.1.mpr ⟨2, by decide, Or.inr (by decide)⟩
  · exact (submit_answer_decision "6" sampleQuiz.ID sampleQuiz "one"
      (some "alice") true).1.mpr (by decide)

/-- The scoring loop adds to the count the stored answers that are right, when
every stored index is inside the question list. -/
theorem countCorrect_eq (quiz : Quiz) :
    ∀ (answers : List UserAnswer) (acc : Nat),
      (∀ ans ∈ answers, 0 ≤ ans.QuestionIndex ∧ ans.QuestionIndex < quiz.Questions.length) →
      countCorrect quiz answers acc
        = some (acc + (answers.filter (answeredCorrectly quiz)).length) := by
  intro answers
  induction answers with
  | nil => intro acc _; rfl
  | cons ans rest ih =>
    intro acc hidx
    obtain ⟨h0, h1⟩ := hidx ans (List.mem_cons_self _ _)
    obtain ⟨q, hq⟩ := index_some quiz.Questions ans.QuestionIndex h0 h1
    have hrest := fun a ha => hidx a (List.mem_cons_of_mem _ ha)
    simp only [countCorrect, hq]
    rw [ih _ hrest]
    by_cases hc : ans.Answer = q.CorrectAnswer
    · have hp : answeredCorrectly quiz ans = true := by
        simp [answeredCorrectly, hq, hc]
      rw [if_pos hc, List.filter_cons_of_pos hp, List.length_cons]
      congr 1
      omega
    · have hp : ¬ answeredCorrectly quiz ans = true := by
        simp [answeredCorrectly, hq]
        exact fun e => hc e.symm
      rw [if_neg hc, List.filter_cons_of_neg hp]

/-- C19: when every stored answer of the attempt has its question index in
`[0, len(quiz.Questions))`, the scoring loop of `FinishQuiz` indexes inside the
question list (it does not panic) and ends with a count equal to the number of
stored entries whose answer equals the correct answer of the question at their
index, each entry counted on its own; the count is at most the number of
stored entries, and the score the handler passes on is
`float64(count) / float64(len(quiz.Questions)) * 100`. -/
theorem finish_quiz_counts_right_answers (quiz : Quiz) (attempt : QuizAttempt)
    (hidx : ∀ ans ∈ attempt.Answers,
      0 ≤ ans.QuestionIndex ∧ ans.QuestionIndex < quiz.Questions.length) :
    ∃ n, countCorrect quiz attempt.Answers 0 = some n ∧
      n = (attempt.Answers.filter (answeredCorrectly quiz)).length ∧
      n ≤ attempt.Answers.length ∧
      (∀ oid uid updated, ∃ reply,
        FinishQuiz (some oid) (some uid) (.found attempt) (.found quiz) updated
          = some ⟨reply, some ⟨n, quiz.Questions.length⟩⟩) := by
  have hcount := countCorrect_eq quiz attempt.Answers 0 hidx
  rw [Nat.zero_add] at hcount
  refine ⟨_, hcount, rfl, List.length_filter_le _ _, ?_⟩
  intro oid uid updated
  cases updated with
  | true =>
    exact ⟨⟨200, .message "Quiz finished successfully"⟩, by simp [FinishQuiz, hcount]⟩
  | false =>
    exact ⟨⟨500, .error "Error updating quiz attempt"⟩, by simp [FinishQuiz, hcount]⟩

/-- Witness for C19: the sample attempt holds two right answers to question 0
and a wrong one to question 1; both entries for question 0 count, so the count
is 2 out of 2 questions. -/
theorem finish_quiz_counts_right_answers_witness :
    countCorrect sampleQuiz sampleAttempt.Answers 0 = some 2 ∧
    FinishQuiz (some sampleQuiz.ID) (some "alice") (.found sampleAttempt) (.found sampleQuiz) true
      = some ⟨⟨200, .message "Quiz finished successfully"⟩, some ⟨2, 2⟩⟩ := by
  obtain ⟨n, hn, hlen, _, _⟩ :=
    finish_quiz_counts_right_answers sampleQuiz sampleAttempt (by decide)
  have h2 : n = 2 := by rw [hlen]; decide
  subst h2
  exact ⟨hn, by decide⟩

end QuizChallenge
